import Mathlib

/-!
Verification of the conversational pipeline of the `pai-desktop` Tauri backend
(`src-tauri/src/ai.rs`, `memory.rs`, `session.rs`, `hooks.rs`).

Modelling conventions (shallow embedding):
* A Rust `String`/`&str` is modelled as `Str := List Char` (unicode scalar values).
* Network calls (`reqwest`) are modelled by oracle parameters giving the outcome of
  the HTTP round trip; everything the repository's code does before and after the
  round trip is modelled concretely.
* `f32` values (the `confidence` field) are represented by their shortest
  round-trip decimal string, which is a faithful injective representation of
  finite `f32` values: Rust's `Display` is then the identity and
  `str::parse::<f32>` restricted to such canonical strings is the identity.
  The Rust default `1.0` is represented by its display form `"1"`.
* `i64` values are modelled as `Int` (no timestamp in this development approaches
  the `i64` bounds, and the claims do not concern overflow).
* The filesystem directories used by the memory store are modelled as lists of
  file contents (all files written by the store have the `.md` extension, and the
  loader only reads `.md` files, so extensions are not modelled separately).
-/

namespace PaiSpec

/-- Characters of a Rust string, modelled as the list of its unicode scalar values. -/
abbrev Str := List Char

/-- The character list of a Lean string literal (used to write `Str` constants). -/
def str (s : String) : Str := s.data

/-! ## String utilities shared by the embedded functions -/

/-- Rust `str::split` with a character-predicate pattern: full split, keeping empty
pieces between adjacent separator characters. -/
def splitByP (p : Char → Bool) : Str → List Str
  | [] => [[]]
  | c :: rest =>
    if p c then [] :: splitByP p rest
    else
      match splitByP p rest with
      | [] => [[c]]
      | w :: ws => (c :: w) :: ws

/-- Rust `str::split_once(sep)` and the single step of `splitn`: split `s` at the
first occurrence of the pattern `sep` (only ever used with a nonempty pattern). -/
def splitOnceSub (sep : Str) : Str → Option (Str × Str)
  | [] => none
  | c :: rest =>
    if sep.isPrefixOf (c :: rest) then some ([], (c :: rest).drop sep.length)
    else (splitOnceSub sep rest).map (fun p => (c :: p.1, p.2))

/-- Rust `str::splitn(3, sep)` collected into a vector: at most two splits. -/
def splitnThree (sep : Str) (s : Str) : List Str :=
  match splitOnceSub sep s with
  | none => [s]
  | some (a, b) =>
    match splitOnceSub sep b with
    | none => [a, b]
    | some (c, d) => [a, c, d]

/-- Rust `str::contains(sep)`: substring occurrence test. -/
def hasSub (sep : Str) : Str → Bool
  | [] => sep.isEmpty
  | c :: rest => sep.isPrefixOf (c :: rest) || hasSub sep rest

/-- Rust `str::split(", ")`: full split on the two-character pattern. -/
def splitCommaSpace : Str → List Str
  | [] => [[]]
  | [c] => [[c]]
  | c :: d :: rest =>
    if c = ',' && d = ' ' then [] :: splitCommaSpace rest
    else
      match splitCommaSpace (d :: rest) with
      | [] => [[c]]
      | w :: ws => (c :: w) :: ws

/-- Rust `char::is_whitespace`: the Unicode `White_Space` property (U+0009..U+000D,
space, U+0085, U+00A0, U+1680, U+2000..U+200A, U+2028, U+2029, U+202F, U+205F and
U+3000). -/
def rustIsWhitespace (c : Char) : Bool :=
  decide (c.toNat = 0x09 ∨ c.toNat = 0x0A ∨ c.toNat = 0x0B ∨ c.toNat = 0x0C
    ∨ c.toNat = 0x0D ∨ c.toNat = 0x20 ∨ c.toNat = 0x85 ∨ c.toNat = 0xA0
    ∨ c.toNat = 0x1680 ∨ (0x2000 ≤ c.toNat ∧ c.toNat ≤ 0x200A)
    ∨ c.toNat = 0x2028 ∨ c.toNat = 0x2029 ∨ c.toNat = 0x202F
    ∨ c.toNat = 0x205F ∨ c.toNat = 0x3000)

/-- Rust `str::trim_start`. -/
def trimLeft (s : Str) : Str := s.dropWhile rustIsWhitespace

/-- Rust `str::trim_end`. -/
def trimRight (s : Str) : Str := (s.reverse.dropWhile rustIsWhitespace).reverse

/-- Rust `str::trim`. -/
def trim (s : Str) : Str := trimRight (trimLeft s)

/-- Rust `[String]::join(sep)`. -/
def joinSep (sep : Str) : List Str → Str
  | [] => []
  | [x] => x
  | x :: y :: ys => x ++ sep ++ joinSep sep (y :: ys)

/-- UTF-8 byte count of one character (Rust `str::len` counts bytes). -/
def utf8Size (c : Char) : Nat :=
  if c.toNat ≤ 0x7F then 1 else if c.toNat ≤ 0x7FF then 2
  else if c.toNat ≤ 0xFFFF then 3 else 4

/-- Rust `str::len`: UTF-8 byte length. -/
def byteLen (s : Str) : Nat := (s.map utf8Size).sum

/-- Rust `char::to_lowercase`, restricted to characters on which it yields a single
character equal to the ASCII lowering: ASCII characters map as usual and CJK
characters map to themselves, which covers every string in this development. -/
def rustToLower (c : Char) : Char := c.toLower

/-- Rust `str::to_lowercase`. -/
def lowerStr (s : Str) : Str := s.map rustToLower

/-- Rust `char::is_alphanumeric` (Unicode alphabetic or numeric), restricted to
ASCII plus the CJK Unified Ideographs block `U+4E00`–`U+9FFF` (all alphabetic);
this covers every character of the strings in this development. -/
def rustIsAlphanumeric (c : Char) : Bool :=
  c.isAlpha || c.isDigit || (0x4E00 ≤ c.toNat && c.toNat ≤ 0x9FFF)

/-- Decimal digit character for `d < 10`. -/
def digitCh (d : Nat) : Char := Char.ofNat (48 + d)

/-- Little-endian decimal digits of `n`, with explicit fuel (`fuel ≥ n` suffices). -/
def natDigitsRev (fuel : Nat) (n : Nat) : Str :=
  match fuel with
  | 0 => []
  | fuel + 1 => if n = 0 then [] else digitCh (n % 10) :: natDigitsRev fuel (n / 10)

/-- Rust `Display` for unsigned decimal integers. -/
def natToStr (n : Nat) : Str := if n = 0 then ['0'] else (natDigitsRev n n).reverse

/-- Rust `Display` for `i64` (modelled on `Int`). -/
def intToStr (t : Int) : Str :=
  if t < 0 then '-' :: natToStr t.natAbs else natToStr t.toNat

/-- ASCII decimal digit test. -/
def isDigitCh (c : Char) : Bool := 48 ≤ c.toNat && c.toNat ≤ 57

/-- Numeric value of a big-endian digit string. -/
def parseNat (s : Str) : Nat := s.foldl (fun a c => 10 * a + (c.toNat - 48)) 0

/-- Rust `str::parse::<i64>` on sign-and-digits strings (the image of `Display`);
other strings are rejected. Overflow is not modelled. -/
def parseInt? (s : Str) : Option Int :=
  match s with
  | [] => none
  | c :: rest =>
    if c = '-' then
      if (!rest.isEmpty) && rest.all isDigitCh then some (-(parseNat rest : Int))
      else none
    else if c = '+' then
      if (!rest.isEmpty) && rest.all isDigitCh then some ((parseNat rest : Int))
      else none
    else if (c :: rest).all isDigitCh then some ((parseNat (c :: rest) : Int))
    else none

/-- Canonical decimal `f32` strings: an optional leading minus followed by a
nonempty run of digits and dots. Every `Display` rendering of a finite `f32` has
this form, and on this set `str::parse::<f32>` followed by `Display` is the
identity, so in the canonical-string model of `f32` a successful parse keeps the
string itself. -/
def isNumTok (s : Str) : Bool :=
  match s with
  | [] => false
  | c :: rest =>
    if c = '-' then (!rest.isEmpty) && rest.all (fun d => isDigitCh d || d = '.')
    else (c :: rest).all (fun d => isDigitCh d || d = '.')

/-- Rust `value.parse::<f32>().unwrap_or(1.0)` in the canonical-string model of
`f32` (`"1"` is the display form of `1.0`). -/
def parseConfOr1 (s : Str) : Str := if isNumTok s then s else str "1"

/-! ## Provider routing (`ai.rs::get_model_provider`) -/

/-- Rust `ai.rs::get_model_provider`: resolve a provider from the model-id string by
prefix matching, in source order, defaulting to `anthropic`. -/
def get_model_provider (model : Str) : Str :=
  if (str "claude-").isPrefixOf model then str "anthropic"
  else if (str "gpt-").isPrefixOf model || (str "o1").isPrefixOf model
      || (str "o3").isPrefixOf model then str "openai"
  else if (str "gemini-").isPrefixOf model then str "google"
  else if (str "grok-").isPrefixOf model then str "xai"
  else if (str "perplexity-").isPrefixOf model then str "perplexity"
  else str "anthropic"

/-- If `p` is a prefix of `m` and `q` is neither a prefix of `p` nor an extension of it,
then `q` is not a prefix of `m`. -/
lemma isPrefixOf_eq_false_of_incomparable (q : Str) {p m : Str} (hp : p.isPrefixOf m = true)
    (h : (p.isPrefixOf q || q.isPrefixOf p) = false) : q.isPrefixOf m = false := by
  by_contra hq
  rw [Bool.not_eq_false] at hq
  rcases List.prefix_or_prefix_of_prefix (List.isPrefixOf_iff_prefix.mp hp)
      (List.isPrefixOf_iff_prefix.mp hq) with h1 | h1
  · rw [← List.isPrefixOf_iff_prefix] at h1
    simp [h1] at h
  · rw [← List.isPrefixOf_iff_prefix] at h1
    simp [h1] at h

/-- C2: provider resolution is a pure function of the model-id string: ids starting
with `claude-` resolve to anthropic; ids starting with `gpt-`, `o1` or `o3` to
openai; `gemini-` to google; `grok-` to xai; `perplexity-` to perplexity; every
other id defaults to anthropic; together with the spec's seven concrete examples. -/
theorem claim2_provider_resolution :
    (∀ m : Str, (str "claude-").isPrefixOf m = true →
      get_model_provider m = str "anthropic") ∧
    (∀ m : Str, ((str "gpt-").isPrefixOf m || (str "o1").isPrefixOf m
        || (str "o3").isPrefixOf m) = true → get_model_provider m = str "openai") ∧
    (∀ m : Str, (str "gemini-").isPrefixOf m = true →
      get_model_provider m = str "google") ∧
    (∀ m : Str, (str "grok-").isPrefixOf m = true → get_model_provider m = str "xai") ∧
    (∀ m : Str, (str "perplexity-").isPrefixOf m = true →
      get_model_provider m = str "perplexity") ∧
    (∀ m : Str, (str "claude-").isPrefixOf m = false →
      (str "gpt-").isPrefixOf m = false → (str "o1").isPrefixOf m = false →
      (str "o3").isPrefixOf m = false → (str "gemini-").isPrefixOf m = false →
      (str "grok-").isPrefixOf m = false → (str "perplexity-").isPrefixOf m = false →
      get_model_provider m = str "anthropic") ∧
    get_model_provider (str "claude-x") = str "anthropic" ∧
    get_model_provider (str "gpt-4o") = str "openai" ∧
    get_model_provider (str "o3-mini") = str "openai" ∧
    get_model_provider (str "gemini-pro") = str "google" ∧
    get_model_provider (str "grok-2") = str "xai" ∧
    get_model_provider (str "perplexity-sonar") = str "perplexity" ∧
    get_model_provider (str "unknown-model") = str "anthropic" := by
  refine ⟨?_, ?_, ?_, ?_, ?_, ?_, by decide, by decide, by decide, by decide,
    by decide, by decide, by decide⟩
  · intro m h
    simp [get_model_provider, h]
  · intro m h
    simp only [Bool.or_eq_true] at h
    rcases h with (h | h) | h <;>
      simp [get_model_provider, isPrefixOf_eq_false_of_incomparable (str "claude-") h
        (by decide), h]
  · intro m h
    have h1 := isPrefixOf_eq_false_of_incomparable (str "claude-") h (by decide)
    have h2 := isPrefixOf_eq_false_of_incomparable (str "gpt-") h (by decide)
    have h3 := isPrefixOf_eq_false_of_incomparable (str "o1") h (by decide)
    have h4 := isPrefixOf_eq_false_of_incomparable (str "o3") h (by decide)
    simp [get_model_provider, h, h1, h2, h3, h4]
  · intro m h
    have h1 := isPrefixOf_eq_false_of_incomparable (str "claude-") h (by decide)
    have h2 := isPrefixOf_eq_false_of_incomparable (str "gpt-") h (by decide)
    have h3 := isPrefixOf_eq_false_of_incomparable (str "o1") h (by decide)
    have h4 := isPrefixOf_eq_false_of_incomparable (str "o3") h (by decide)
    have h5 := isPrefixOf_eq_false_of_incomparable (str "gemini-") h (by decide)
    simp [get_model_provider, h, h1, h2, h3, h4, h5]
  · intro m h
    have h1 := isPrefixOf_eq_false_of_incomparable (str "claude-") h (by decide)
    have h2 := isPrefixOf_eq_false_of_incomparable (str "gpt-") h (by decide)
    have h3 := isPrefixOf_eq_false_of_incomparable (str "o1") h (by decide)
    have h4 := isPrefixOf_eq_false_of_incomparable (str "o3") h (by decide)
    have h5 := isPrefixOf_eq_false_of_incomparable (str "gemini-") h (by decide)
    have h6 := isPrefixOf_eq_false_of_incomparable (str "grok-") h (by decide)
    simp [get_model_provider, h, h1, h2, h3, h4, h5, h6]
  · intro m h1 h2 h3 h4 h5 h6 h7
    simp [get_model_provider, h1, h2, h3, h4, h5, h6, h7]

/-- Witness for C2: the routing rules applied at concrete model ids. -/
theorem claim2_witness :
    get_model_provider (str "claude-instant") = str "anthropic" ∧
    get_model_provider (str "o1-preview") = str "openai" := by
  exact ⟨claim2_provider_resolution.1 (str "claude-instant") (by decide),
    claim2_provider_resolution.2.1 (str "o1-preview") (by decide)⟩

/-! ## Keyword extraction (`ai.rs::extract_keywords`) -/

/-- Rust `ai.rs::extract_keywords`: the fixed multilingual stop-word list. -/
def stop_words : List Str :=
  ([ "the", "a", "an", "is", "are", "was", "were", "be", "been", "being",
    "have", "has", "had", "do", "does", "did", "will", "would", "could", "should",
    "may", "might", "must", "shall", "can", "need", "dare", "ought", "used", "to",
    "of", "in", "for", "on", "with", "at", "by", "from", "as", "into", "through",
    "during", "before", "after", "above", "below", "between", "under", "again",
    "further", "then", "once", "here", "there", "when", "where", "why", "how",
    "all", "each", "few", "more", "most", "other", "some", "such", "no", "nor",
    "not", "only", "own", "same", "so", "than", "too", "very", "just", "and",
    "but", "if", "or", "because", "until", "while", "this", "that", "these",
    "those", "what", "which", "who", "whom", "i", "you", "he", "she", "it", "we",
    "they", "me", "him", "her", "us", "them", "my", "your", "his", "its", "our",
    "their", "mine", "yours", "hers", "ours", "theirs", "请", "帮我", "给我",
    "我想", "你能", "可以", "这个", "那个", "什么", "怎么", "如何", "为什么" ]
    : List String).map str

/-- Rust `ai.rs::extract_keywords`, as the list of retained tokens: lower-case the
text, split on non-alphanumeric characters, keep tokens of byte length `> 2` that
are not stop words. -/
def extract_keyword_list (text : Str) : List Str :=
  ((splitByP (fun c => !rustIsAlphanumeric c) (lowerStr text)).filter
      (fun s => 2 < byteLen s)).filter (fun s => !stop_words.contains s)

/-- Rust `ai.rs::extract_keywords`: the retained tokens joined by single spaces. -/
def extract_keywords (text : Str) : Str :=
  joinSep (str " ") (extract_keyword_list text)

/-- C5 as stated is false at the spec's own example: the token `请帮我` is a single
token (CJK characters are alphanumeric, so the run is not split) and is not a
member of the stop-word list (which contains `请` and `帮我` only as separate
entries), so it is retained in the keyword string, while the claim says the
extraction excludes it. -/
theorem claim5_counterexample :
    (str "请帮我") ∈ extract_keyword_list (str "请帮我 remember the deadline is Friday") := by
  decide

/-- C5 amended: keyword extraction on `"请帮我 remember the deadline is Friday"`
excludes `"the"` and `"is"` and retains `"remember"`, `"deadline"`, `"friday"`,
but also retains `"请帮我"`: the token list is exactly
`[请帮我, remember, deadline, friday]`. -/
theorem claim5_keyword_extraction :
    extract_keyword_list (str "请帮我 remember the deadline is Friday")
      = [str "请帮我", str "remember", str "deadline", str "friday"] ∧
    extract_keywords (str "请帮我 remember the deadline is Friday")
      = str "请帮我 remember deadline friday" := by
  constructor <;> decide

/-! ## Data model (`lib.rs`) -/

/-- Rust `lib.rs::ChatMessage`. -/
structure ChatMessage where
  role : Str
  content : Str
  timestamp : Int
deriving DecidableEq, Repr

/-- Rust `lib.rs::MemoryItem`; the `f32` field `confidence` is represented by its
canonical decimal string (see the file header). -/
structure MemoryItem where
  id : Str
  title : Str
  content : Str
  memory_type : Str
  timestamp : Int
  tags : List Str
  entities : List Str
  confidence : Str
deriving DecidableEq, Repr

/-- Rust `lib.rs::Settings`. -/
structure Settings where
  anthropic_api_key : Str
  openai_api_key : Str
  google_api_key : Str
  xai_api_key : Str
  perplexity_api_key : Str
  elevenlabs_api_key : Str
  default_model : Str
  voice_enabled : Bool
deriving DecidableEq, Repr

/-! ## Context builder (`ai.rs::build_context`) -/

/-- The per-memory predicate of `build_context`: the keyword query occurs
case-insensitively as a substring of the title, a tag, or an entity. -/
def memory_matches (query : Str) (m : MemoryItem) : Bool :=
  hasSub query (lowerStr m.title) || m.tags.any (fun t => hasSub query (lowerStr t))
    || m.entities.any (fun e => hasSub query (lowerStr e))

/-- The relevant memories collected by `build_context`: the first five matches. -/
def relevant_memories (query : Str) (memories : List MemoryItem) : List MemoryItem :=
  (memories.filter (memory_matches query)).take 5

/-- The `## Relevant Memories` phase of `build_context` (it contributes nothing when
there is no user message, the keyword query is empty, or no memory matches). -/
def memory_section (messages : List ChatMessage) (memories : List MemoryItem) : Str :=
  match (messages.reverse).find? (fun m => m.role == str "user") with
  | none => []
  | some last_user_msg =>
    let query := extract_keywords last_user_msg.content
    if query.isEmpty then []
    else
      let relevant := relevant_memories query memories
      if relevant.isEmpty then []
      else (str "## Relevant Memories\n")
        ++ (relevant.map (fun memory => (str "### ") ++ memory.title ++ (str "\n")
              ++ memory.content ++ (str "\n\n"))).flatten

/-- The `## Recent Conversation` phase of `build_context`: rendered only when the
memory store is empty and the log is not; the last ten messages, oldest first. -/
def recent_section (messages : List ChatMessage) (memories : List MemoryItem) : Str :=
  if memories.isEmpty && !messages.isEmpty then
    (str "## Recent Conversation\n")
      ++ ((((messages.reverse).take 10).reverse).map
           (fun msg => msg.role ++ (str ": ") ++ msg.content ++ (str "\n"))).flatten
  else []

/-- Rust `ai.rs::build_context`: the source builds the context string by the two
sequential `push_str` phases above. -/
def build_context (messages : List ChatMessage) (memories : List MemoryItem) : Str :=
  memory_section messages memories ++ recent_section messages memories

/-- With an empty memory store the memory phase contributes nothing. -/
lemma memory_section_nil (messages : List ChatMessage) :
    memory_section messages [] = [] := by
  unfold memory_section
  cases h : (messages.reverse).find? (fun m => m.role == str "user") with
  | none => rfl
  | some u => simp [relevant_memories]

/-- C3: with an empty memory store and a non-empty log, the context is exactly the
`## Recent Conversation` block over the last ten messages, oldest of the window
first; with a non-empty memory store, a latest user message whose keyword query is
non-empty and matched by some memory, the context is exactly the
`## Relevant Memories` block over at most five matching memories and contains no
recent-conversation section; the two phases are never both non-empty. -/
theorem claim3_context_builder :
    (∀ (messages : List ChatMessage) (memories : List MemoryItem),
      memories = [] → messages ≠ [] →
      build_context messages memories = (str "## Recent Conversation\n")
        ++ ((((messages.reverse).take 10).reverse).map
             (fun msg => msg.role ++ (str ": ") ++ msg.content ++ (str "\n"))).flatten) ∧
    (∀ (messages : List ChatMessage) (memories : List MemoryItem)
        (last_user : ChatMessage),
      memories ≠ [] →
      (messages.reverse).find? (fun m => m.role == str "user") = some last_user →
      extract_keywords last_user.content ≠ [] →
      relevant_memories (extract_keywords last_user.content) memories ≠ [] →
      build_context messages memories = (str "## Relevant Memories\n")
          ++ ((relevant_memories (extract_keywords last_user.content) memories).map
               (fun memory => (str "### ") ++ memory.title ++ (str "\n")
                  ++ memory.content ++ (str "\n\n"))).flatten
        ∧ (relevant_memories (extract_keywords last_user.content) memories).length ≤ 5) ∧
    (∀ (messages : List ChatMessage) (memories : List MemoryItem),
      memory_section messages memories = [] ∨ recent_section messages memories = []) := by
  refine ⟨?_, ?_, ?_⟩
  · intro messages memories hm hmsg
    subst hm
    simp [build_context, memory_section_nil, recent_section, hmsg]
  · intro messages memories last_user hm hfind hq hrel
    constructor
    · have h1 : (extract_keywords last_user.content).isEmpty = false := by
        simpa [List.isEmpty_iff] using hq
      have h2 : (relevant_memories (extract_keywords last_user.content)
          memories).isEmpty = false := by
        simpa [List.isEmpty_iff] using hrel
      have h3 : memories.isEmpty = false := by
        simpa [List.isEmpty_iff] using hm
      simp [build_context, memory_section, recent_section, hfind, h1, h2, h3]
    · exact List.length_take_le 5 _
  · intro messages memories
    by_cases hm : memories = []
    · subst hm
      exact Or.inl (memory_section_nil messages)
    · right
      simp [recent_section, hm]

/-- The twelve-message log of the C3 witness. -/
def c3Messages : List ChatMessage :=
  [⟨str "user", str "a0", 0⟩, ⟨str "assistant", str "a1", 1⟩,
   ⟨str "user", str "a2", 2⟩, ⟨str "assistant", str "a3", 3⟩,
   ⟨str "user", str "a4", 4⟩, ⟨str "assistant", str "a5", 5⟩,
   ⟨str "user", str "a6", 6⟩, ⟨str "assistant", str "a7", 7⟩,
   ⟨str "user", str "a8", 8⟩, ⟨str "assistant", str "a9", 9⟩,
   ⟨str "user", str "a10", 10⟩, ⟨str "assistant", str "a11", 11⟩]

/-- The latest user message of the C3 witness's second scenario. -/
def c3UserMsg : ChatMessage := ⟨str "user", str "project deadline tomorrow", 12⟩

/-- A stored memory matching the witness query. -/
def c3Memory : MemoryItem :=
  ⟨str "mem-1", str "project deadline tomorrow planning", str "ship it", str "WORK",
    5, [], [], str "1"⟩

/-- Witness for C3: both context-builder modes at concrete inputs. -/
theorem claim3_witness :
    (build_context c3Messages [] = (str "## Recent Conversation\n")
      ++ ((((c3Messages.reverse).take 10).reverse).map
           (fun msg => msg.role ++ (str ": ") ++ msg.content ++ (str "\n"))).flatten) ∧
    (build_context [c3UserMsg] [c3Memory] = (str "## Relevant Memories\n")
      ++ ((relevant_memories (extract_keywords c3UserMsg.content) [c3Memory]).map
           (fun memory => (str "### ") ++ memory.title ++ (str "\n")
              ++ memory.content ++ (str "\n\n"))).flatten) := by
  exact ⟨claim3_context_builder.1 c3Messages [] rfl (by decide),
    (claim3_context_builder.2.1 [c3UserMsg] [c3Memory] c3UserMsg (by decide) (by decide)
      (by decide) (by decide)).1⟩

/-! ## Chat orchestration (`ai.rs::chat` and the provider adapters) -/

/-- Rust `ai.rs::SettingsApiKeys`: the key copy taken under the settings lock. -/
structure SettingsApiKeys where
  anthropic : Str
  openai : Str
  google : Str
  xai : Str
  perplexity : Str
deriving DecidableEq, Repr

/-- Rust `ai.rs::chat_anthropic`: the empty-key guard; the network round trip and
response extraction after the guard are abstracted by the oracle `net`. -/
def chat_anthropic (settings : SettingsApiKeys) (_model _message : Str)
    (_system_prompt : Option Str) (net : Except Str Str) : Except Str Str :=
  if settings.anthropic.isEmpty then
    Except.error (str "Anthropic API key not configured")
  else net

/-- Rust `ai.rs::chat_openai` (guard as above). -/
def chat_openai (settings : SettingsApiKeys) (_model _message : Str)
    (_system_prompt : Option Str) (net : Except Str Str) : Except Str Str :=
  if settings.openai.isEmpty then
    Except.error (str "OpenAI API key not configured")
  else net

/-- Rust `ai.rs::chat_google` (guard as above). -/
def chat_google (settings : SettingsApiKeys) (_model _message : Str)
    (_system_prompt : Option Str) (net : Except Str Str) : Except Str Str :=
  if settings.google.isEmpty then
    Except.error (str "Google API key not configured")
  else net

/-- Rust `ai.rs::chat_xai` (guard as above). -/
def chat_xai (settings : SettingsApiKeys) (_model _message : Str)
    (_system_prompt : Option Str) (net : Except Str Str) : Except Str Str :=
  if settings.xai.isEmpty then
    Except.error (str "xAI API key not configured")
  else net

/-- Rust `ai.rs::chat_perplexity` (guard as above). -/
def chat_perplexity (settings : SettingsApiKeys) (_model _message : Str)
    (_system_prompt : Option Str) (net : Except Str Str) : Except Str Str :=
  if settings.perplexity.isEmpty then
    Except.error (str "Perplexity API key not configured")
  else net

/-- Rust `lib.rs::AppState`: the in-memory state that `chat` reads and mutates. -/
structure AppState where
  settings : Settings
  memories : List MemoryItem
  messages : List ChatMessage
deriving Repr

/-- The api-key copy `chat` takes from the settings. -/
def apiKeysOf (s : Settings) : SettingsApiKeys :=
  ⟨s.anthropic_api_key, s.openai_api_key, s.google_api_key, s.xai_api_key,
    s.perplexity_api_key⟩

/-- The full message `chat` sends to the adapter: the context built from the state
as it is before the incoming user message is appended, prepended to the message. -/
def chat_full_message (state : AppState) (message : Str) : Str :=
  let context := build_context state.messages state.memories
  if context.isEmpty then message
  else context ++ (str "\n\nUser: ") ++ message

/-- The provider `match` of `chat` (the wildcard arm falls back to anthropic). -/
def chat_dispatch (provider : Str) (api_keys : SettingsApiKeys)
    (model full_message : Str) (system_prompt : Option Str) (net : Except Str Str) :
    Except Str Str :=
  if provider == str "anthropic" then
    chat_anthropic api_keys model full_message system_prompt net
  else if provider == str "openai" then
    chat_openai api_keys model full_message system_prompt net
  else if provider == str "google" then
    chat_google api_keys model full_message system_prompt net
  else if provider == str "xai" then
    chat_xai api_keys model full_message system_prompt net
  else if provider == str "perplexity" then
    chat_perplexity api_keys model full_message system_prompt net
  else chat_anthropic api_keys model full_message system_prompt net

/-- Rust `ai.rs::chat`: resolve the model and provider, build the context from the
current state, dispatch, then push the user message unconditionally and the
assistant message only on success. The `chrono::Utc::now` timestamps are passed as
`now`; the provider round trip as `net`. Returns the command result and the
updated state. -/
def chat (state : AppState) (message : Str) (model? : Option Str)
    (system_prompt : Option Str) (net : Except Str Str) (now : Int) :
    Except Str Str × AppState :=
  let model := model?.getD state.settings.default_model
  let provider := get_model_provider model
  let full_message := chat_full_message state message
  let user_message : ChatMessage := ⟨str "user", message, now⟩
  let response := chat_dispatch provider (apiKeysOf state.settings) model
    full_message system_prompt net
  let assistant_message : ChatMessage :=
    ⟨str "assistant",
      (match response with | Except.ok r => r | Except.error e => e), now⟩
  let new_messages := state.messages ++ [user_message]
      ++ (if response.isOk then [assistant_message] else [])
  (response, ⟨state.settings, state.memories, new_messages⟩)

/-- The key that the dispatch of `chat` consults for a resolved provider name
(the wildcard arm consults the anthropic key, mirroring `chat_dispatch`). -/
def provider_key (provider : Str) (k : SettingsApiKeys) : Str :=
  if provider == str "anthropic" then k.anthropic
  else if provider == str "openai" then k.openai
  else if provider == str "google" then k.google
  else if provider == str "xai" then k.xai
  else if provider == str "perplexity" then k.perplexity
  else k.anthropic

/-- The provider-specific configuration-error message. -/
def not_configured_msg (provider : Str) : Str :=
  if provider == str "anthropic" then str "Anthropic API key not configured"
  else if provider == str "openai" then str "OpenAI API key not configured"
  else if provider == str "google" then str "Google API key not configured"
  else if provider == str "xai" then str "xAI API key not configured"
  else if provider == str "perplexity" then str "Perplexity API key not configured"
  else str "Anthropic API key not configured"

/-- With an empty key for the resolved provider, the dispatch fails with that
provider's "not configured" error, whatever the network oracle would have said. -/
lemma chat_dispatch_empty_key (provider : Str) (k : SettingsApiKeys)
    (model full_message : Str) (sp : Option Str) (net : Except Str Str)
    (hk : provider_key provider k = []) :
    chat_dispatch provider k model full_message sp net
      = Except.error (not_configured_msg provider) := by
  unfold provider_key at hk
  unfold chat_dispatch not_configured_msg
  by_cases h1 : provider == str "anthropic"
  · simp only [h1, if_true] at hk ⊢
    simp [chat_anthropic, hk]
  all_goals simp only [h1, if_false, Bool.false_eq_true] at hk ⊢
  all_goals by_cases h2 : provider == str "openai"
  · simp only [h2, if_true] at hk ⊢
    simp [chat_openai, hk]
  all_goals simp only [h2, if_false, Bool.false_eq_true] at hk ⊢
  all_goals by_cases h3 : provider == str "google"
  · simp only [h3, if_true] at hk ⊢
    simp [chat_google, hk]
  all_goals simp only [h3, if_false, Bool.false_eq_true] at hk ⊢
  all_goals by_cases h4 : provider == str "xai"
  · simp only [h4, if_true] at hk ⊢
    simp [chat_xai, hk]
  all_goals simp only [h4, if_false, Bool.false_eq_true] at hk ⊢
  all_goals by_cases h5 : provider == str "perplexity"
  · simp only [h5, if_true] at hk ⊢
    simp [chat_perplexity, hk]
  all_goals simp only [h5, if_false, Bool.false_eq_true] at hk ⊢
  all_goals simp [chat_anthropic, hk]

/-- C1: `chat` appends the user message to the log unconditionally and appends an
assistant message if and only if the provider call succeeded; when the resolved
provider's key is the empty string, the result is that provider's "not configured"
error, the user message is still appended, and no assistant message is appended. -/
theorem claim1_chat_append_semantics :
    (∀ (state : AppState) (message : Str) (model? system_prompt : Option Str)
        (net : Except Str Str) (now : Int),
      (chat state message model? system_prompt net now).2.messages
        = state.messages ++ [⟨str "user", message, now⟩]
          ++ (if (chat state message model? system_prompt net now).1.isOk then
                [⟨str "assistant",
                  (match (chat state message model? system_prompt net now).1 with
                   | Except.ok r => r | Except.error e => e), now⟩]
              else [])) ∧
    (∀ (state : AppState) (message : Str) (model? system_prompt : Option Str)
        (net : Except Str Str) (now : Int),
      provider_key (get_model_provider (model?.getD state.settings.default_model))
          (apiKeysOf state.settings) = [] →
      (chat state message model? system_prompt net now).1
          = Except.error (not_configured_msg
              (get_model_provider (model?.getD state.settings.default_model)))
        ∧ (chat state message model? system_prompt net now).2.messages
          = state.messages ++ [⟨str "user", message, now⟩]) := by
  constructor
  · intro state message model? system_prompt net now
    rfl
  · intro state message model? system_prompt net now hk
    have hd := chat_dispatch_empty_key
      (get_model_provider (model?.getD state.settings.default_model))
      (apiKeysOf state.settings) (model?.getD state.settings.default_model)
      (chat_full_message state message) system_prompt net hk
    constructor
    · simpa [chat] using hd
    · simp [chat, hd, Except.isOk, Except.toBool]

/-- State of the C1 witness: anthropic key empty, anthropic default model. -/
def c1State : AppState :=
  ⟨⟨[], str "sk-o", str "sk-g", str "sk-x", str "sk-p", [],
      str "claude-sonnet-4-20250514", false⟩, [], []⟩

/-- Witness for C1: with an empty anthropic key, chatting on the default model
fails with the anthropic configuration error and records only the user message. -/
theorem claim1_witness :
    (chat c1State (str "hi") none none (Except.ok (str "reply")) 7).1
        = Except.error (str "Anthropic API key not configured")
      ∧ (chat c1State (str "hi") none none (Except.ok (str "reply")) 7).2.messages
        = [⟨str "user", str "hi", 7⟩] := by
  have h := claim1_chat_append_semantics.2 c1State (str "hi") none none
    (Except.ok (str "reply")) 7 (by decide)
  exact ⟨by simpa using h.1, by simpa using h.2⟩

/-- C10: the reply of `chat` is the dispatch applied to `chat_full_message`, whose
context is built from the log as it is before the user message is appended; the
memory section depends on the log only through the latest user-role message
already in it; and on the first chat of a process (empty log) the full message is
exactly the incoming message, with no context block at all, whatever the memory
store holds. -/
theorem claim10_context_before_append :
    (∀ (state : AppState) (message : Str) (model? system_prompt : Option Str)
        (net : Except Str Str) (now : Int),
      (chat state message model? system_prompt net now).1
        = chat_dispatch (get_model_provider (model?.getD state.settings.default_model))
            (apiKeysOf state.settings) (model?.getD state.settings.default_model)
            (chat_full_message state message) system_prompt net) ∧
    (∀ (messages : List ChatMessage) (memories : List MemoryItem)
        (last_user : ChatMessage),
      (messages.reverse).find? (fun m => m.role == str "user") = some last_user →
      memory_section messages memories = memory_section [last_user] memories) ∧
    (∀ (state : AppState) (message : Str), state.messages = [] →
      chat_full_message state message = message
        ∧ build_context [] state.memories = []) := by
  refine ⟨?_, ?_, ?_⟩
  · intro state message model? system_prompt net now
    rfl
  · intro messages memories last_user hfind
    have hrole : (fun m : ChatMessage => m.role == str "user") last_user = true :=
      @List.find?_some _ (fun m : ChatMessage => m.role == str "user") last_user
        messages.reverse hfind
    unfold memory_section
    rw [hfind]
    simp [hrole]
  · intro state message hmsg
    have hctx : build_context [] state.memories = [] := by
      simp [build_context, memory_section, recent_section]
    exact ⟨by simp [chat_full_message, hmsg, hctx], hctx⟩

/-- Witness for C10: on an empty log the adapter receives the raw message. -/
theorem claim10_witness :
    chat_full_message ⟨⟨[], [], [], [], [], [], str "claude-x", false⟩,
        [c3Memory], []⟩ (str "hello there")
      = str "hello there" := by
  exact (claim10_context_before_append.2.2
    ⟨⟨[], [], [], [], [], [], str "claude-x", false⟩, [c3Memory], []⟩
    (str "hello there") rfl).1

/-! ## Sessions (`session.rs`) -/

/-- Rust `session.rs::Session`. -/
structure Session where
  id : Str
  name : Str
  created_at : Int
  last_active : Int
  message_count : Nat
deriving DecidableEq, Repr

/-- The sessions directory: session-file contents keyed by session id (the on-disk
name is `{id}.json`, and serde round trips are external to this repository, so a
file's content is modelled as the `Session` value it serializes), plus the
`current_session` pointer file. -/
structure SessionsDir where
  files : Str → Option Session
  current : Option Session

/-- Rust `session.rs::create_new_session`; `now` is `SystemTime::now` in
milliseconds. Writes the session file, then overwrites the pointer file. -/
def create_new_session (name : Str) (now : Int) (d : SessionsDir) :
    Session × SessionsDir :=
  let session : Session := ⟨(str "session-") ++ intToStr now, name, now, now, 0⟩
  (session,
    ⟨fun k => if k == session.id then some session else d.files k, some session⟩)

/-- Rust `session.rs::get_current_session`: read the pointer file if it exists,
otherwise synthesize a `Default` session. -/
def get_current_session (now : Int) (d : SessionsDir) : Session × SessionsDir :=
  match d.current with
  | some s => (s, d)
  | none => create_new_session (str "Default") now d

/-- Rust `session.rs::delete_session`: error if the session file is missing, error
(leaving the file intact) if the session is current, otherwise remove the file. -/
def delete_session (session_id : Str) (now : Int) (d : SessionsDir) :
    Except Str Unit × SessionsDir :=
  match d.files session_id with
  | none => (Except.error (str "Session not found"), d)
  | some _ =>
    let r := get_current_session now d
    if r.1.id == session_id then
      (Except.error (str "Cannot delete current session"), r.2)
    else
      (Except.ok (),
        ⟨fun k => if k == session_id then none else r.2.files k, r.2.current⟩)

/-- C8: after creating session `A` and then session `B`, `get_current_session`
returns the `B` session (the pointer tracks the most recent creation), and
`delete_session` on the current session's id returns an error and leaves the
directory — in particular `B`'s session file — untouched. -/
theorem claim8_session_invariant :
    ∀ (d : SessionsDir) (t1 t2 t3 : Int),
      (get_current_session t3 (create_new_session (str "B") t2
          (create_new_session (str "A") t1 d).2).2).1
        = (create_new_session (str "B") t2 (create_new_session (str "A") t1 d).2).1
      ∧ (create_new_session (str "B") t2 (create_new_session (str "A") t1 d).2).1.name
        = str "B"
      ∧ (delete_session
            (create_new_session (str "B") t2 (create_new_session (str "A") t1 d).2).1.id
            t3
            (create_new_session (str "B") t2 (create_new_session (str "A") t1 d).2).2).1
        = Except.error (str "Cannot delete current session")
      ∧ (delete_session
            (create_new_session (str "B") t2 (create_new_session (str "A") t1 d).2).1.id
            t3
            (create_new_session (str "B") t2 (create_new_session (str "A") t1 d).2).2).2.files
        = (create_new_session (str "B") t2 (create_new_session (str "A") t1 d).2).2.files
      ∧ (create_new_session (str "B") t2 (create_new_session (str "A") t1 d).2).2.files
          (create_new_session (str "B") t2 (create_new_session (str "A") t1 d).2).1.id
        = some (create_new_session (str "B") t2 (create_new_session (str "A") t1 d).2).1 := by
  intro d t1 t2 t3
  refine ⟨rfl, rfl, ?_, ?_, by simp [create_new_session]⟩
  · simp [create_new_session, delete_session, get_current_session]
  · simp [create_new_session, delete_session, get_current_session]

/-! ## Automatic memory extraction (`hooks.rs`) -/

/-- A parsed `serde_json::Value`; numbers carry an integer payload, which no
operation in the modelled code ever reads. -/
inductive Json where
  | null : Json
  | jbool : Bool → Json
  | jnum : Int → Json
  | jstr : Str → Json
  | jarr : List Json → Json
  | jobj : List (Str × Json) → Json

/-- `serde_json` indexing `value["key"]`: object member lookup, `Null` otherwise. -/
def Json.getKey (j : Json) (key : Str) : Json :=
  match j with
  | Json.jobj fields =>
    ((fields.find? (fun p => p.1 == key)).map (fun p => p.2)).getD Json.null
  | _ => Json.null

/-- `serde_json` `Value::as_str`. -/
def Json.asStr : Json → Option Str
  | Json.jstr s => some s
  | _ => none

/-- `serde_json` `Value::as_array`. -/
def Json.asArr : Json → Option (List Json)
  | Json.jarr xs => some xs
  | _ => none

/-- Rust `hooks.rs::HookSystem::new`: the fixed bilingual trigger keywords. -/
def hook_keywords : List Str :=
  ([ "记住", "remember", "memorize", "重要", "important", "别忘了", "don't forget",
     "提醒我", "remind me", "学习", "learn", "项目", "project", "任务", "task",
     "会议", "meeting", "截止日期", "deadline", "人名", "name", "电话", "phone",
     "邮箱", "email", "地址", "address" ] : List String).map str

/-- Rust `hooks.rs::HookSystem::new`: the message-count threshold. -/
def message_count_threshold : Nat := 5

/-- Rust `hooks.rs::parse_memory_response`: trim the reply, parse it as JSON (the
`serde_json::from_str` grammar is external to this repository and is passed as the
oracle `fromStr`), then read the required fields; `now_ms` stands for
`chrono::Utc::now().timestamp_millis()`. -/
def parse_memory_response (fromStr : Str → Option Json) (now_ms : Int)
    (response : Str) : Option MemoryItem := do
  let json ← fromStr (trim response)
  let title ← (json.getKey (str "title")).asStr
  let content ← (json.getKey (str "content")).asStr
  let memory_type ← (json.getKey (str "memory_type")).asStr
  let tags := (← (json.getKey (str "tags")).asArr).filterMap Json.asStr
  pure ⟨(str "memory-") ++ intToStr now_ms, title, content, memory_type, now_ms,
    tags, [], str "0.8"⟩

/-- Rust `hooks.rs::call_ai_for_extraction`: `None` when neither the anthropic nor
the openai key is configured; otherwise the network reply, abstracted as `net`. -/
def call_ai_for_extraction (settings : Settings) (net : Option Str) : Option Str :=
  if !settings.anthropic_api_key.isEmpty then net
  else if !settings.openai_api_key.isEmpty then net
  else none

/-- Rust `hooks.rs::analyze_and_extract` (the prompt only feeds the network call,
whose reply is the oracle `net`). -/
def analyze_and_extract (_content : Str) (settings : Settings) (net : Option Str)
    (fromStr : Str → Option Json) (now_ms : Int) : Option MemoryItem := do
  let response ← call_ai_for_extraction settings net
  parse_memory_response fromStr now_ms response

/-- Rust `hooks.rs::analyze_contextual_memory`: broader extraction over the last
five messages (newest first, in the prompt only); a parsed result with an empty
title suppresses record creation. -/
def analyze_contextual_memory (messages : List ChatMessage) (settings : Settings)
    (net : Option Str) (fromStr : Str → Option Json) (now_ms : Int) :
    Option MemoryItem := do
  let _conversation := joinSep (str "\n\n")
    (((messages.reverse).take 5).map (fun m => m.role ++ (str ": ") ++ m.content))
  let response ← call_ai_for_extraction settings net
  let memory ← parse_memory_response fromStr now_ms response
  if memory.title.isEmpty then none else pure memory

/-- Rust `hooks.rs::check_and_extract_memory`: scan the last ten messages for
trigger keywords and extract from the first hit; otherwise, once the log holds at
least five messages and the most recent one is user-authored and longer than 50
bytes, run the broader contextual extraction. -/
def check_and_extract_memory (messages : List ChatMessage) (settings : Settings)
    (net : Option Str) (fromStr : Str → Option Json) (now_ms : Int) :
    Option MemoryItem :=
  let recent_messages := (messages.reverse).take 10
  match recent_messages.findSome? (fun msg =>
      hook_keywords.findSome? (fun keyword =>
        if hasSub (lowerStr keyword) (lowerStr msg.content) then
          analyze_and_extract msg.content settings net fromStr now_ms
        else none)) with
  | some memory => some memory
  | none =>
    if message_count_threshold ≤ messages.length then
      match recent_messages.head? with
      | some last_msg =>
        if last_msg.role == str "user" && 50 < byteLen last_msg.content then
          analyze_contextual_memory messages settings net fromStr now_ms
        else none
      | none => none
    else none

/-- C9: in the threshold-triggered mode — no trigger keyword occurs in the last ten
messages, the log holds at least five messages, and the most recent message is
user-authored and longer than 50 bytes — a successfully parsed extraction reply
whose `title` field is the empty string produces no memory item:
`check_and_extract_memory` returns `none`, with no error surfaced. -/
theorem claim9_empty_title_suppresses :
    ∀ (messages : List ChatMessage) (settings : Settings) (reply : Str)
      (fromStr : Str → Option Json) (now_ms : Int) (mem : MemoryItem)
      (last_msg : ChatMessage),
      (∀ msg ∈ (messages.reverse).take 10, ∀ keyword ∈ hook_keywords,
        hasSub (lowerStr keyword) (lowerStr msg.content) = false) →
      message_count_threshold ≤ messages.length →
      ((messages.reverse).take 10).head? = some last_msg →
      (last_msg.role == str "user" && 50 < byteLen last_msg.content) = true →
      parse_memory_response fromStr now_ms reply = some mem →
      mem.title = [] →
      check_and_extract_memory messages settings (some reply) fromStr now_ms
        = none := by
  intro messages settings reply fromStr now_ms mem last_msg hkw hlen hhead hlast
    hparse htitle
  have hscan : ((messages.reverse).take 10).findSome? (fun msg =>
      hook_keywords.findSome? (fun keyword =>
        if hasSub (lowerStr keyword) (lowerStr msg.content) then
          analyze_and_extract msg.content settings (some reply) fromStr now_ms
        else none)) = none := by
    rw [List.findSome?_eq_none_iff]
    intro msg hmsg
    rw [List.findSome?_eq_none_iff]
    intro keyword hk
    simp [hkw msg hmsg keyword hk]
  have hctx : analyze_contextual_memory messages settings (some reply) fromStr
      now_ms = none := by
    unfold analyze_contextual_memory call_ai_for_extraction
    have hempty : mem.title.isEmpty = true := by simp [htitle]
    by_cases h1 : settings.anthropic_api_key.isEmpty
    · by_cases h2 : settings.openai_api_key.isEmpty
      · simp [h1, h2]
      · simp [h1, h2, Option.bind, hparse, hempty, htitle]
    · simp [h1, Option.bind, hparse, hempty, htitle]
  unfold check_and_extract_memory
  simp [hscan, hlen, hhead, hlast, hctx]

/-- Messages of the C9 witness: five keyword-free messages ending in a long user
message. -/
def c9Messages : List ChatMessage :=
  [⟨str "user", str "ok", 1⟩, ⟨str "assistant", str "ok", 2⟩,
   ⟨str "user", str "ok", 3⟩, ⟨str "assistant", str "ok", 4⟩,
   ⟨str "user", str "xxxxxxxxxxxxxxxxxxxxxxxxxxxxxxxxxxxxxxxxxxxxxxxxxxxxxxxxxxxx", 5⟩]

/-- JSON oracle of the C9 witness: every reply parses to an object whose title is
the empty string. -/
def c9FromStr : Str → Option Json := fun _ =>
  some (Json.jobj [(str "title", Json.jstr []), (str "content", Json.jstr (str "c")),
    (str "memory_type", Json.jstr (str "general")), (str "tags", Json.jarr [])])

/-- The memory item the C9 witness's reply parses to. -/
def c9Mem : MemoryItem :=
  ⟨str "memory-0", [], str "c", str "general", 0, [], [], str "0.8"⟩

/-- Witness for C9: with a configured key, a long final user message and an
empty-title parse, no memory is created. -/
theorem claim9_witness :
    check_and_extract_memory c9Messages
      ⟨str "sk-a", [], [], [], [], [], str "claude-x", false⟩
      (some (str "{}")) c9FromStr 0 = none := by
  exact claim9_empty_title_suppresses c9Messages
    ⟨str "sk-a", [], [], [], [], [], str "claude-x", false⟩
    (str "{}") c9FromStr 0 c9Mem
    ⟨str "user", str "xxxxxxxxxxxxxxxxxxxxxxxxxxxxxxxxxxxxxxxxxxxxxxxxxxxxxxxxxxxx", 5⟩
    (by decide) (by decide) (by decide) (by decide) (by decide) rfl

/-! ## Well-formedness predicates and string lemmas for the memory store -/

/-- `v` has no leading and no trailing whitespace (Rust `char::is_whitespace`,
i.e. the full Unicode `White_Space` set). -/
def noEdgeWS (v : Str) : Bool :=
  v.head?.all (fun c => !rustIsWhitespace c)
    && v.getLast?.all (fun c => !rustIsWhitespace c)

/-- A header field value that survives the `save`/`load` round trip: nonempty, no
edge whitespace, single-line, and free of the `---` delimiter. -/
def wfField (v : Str) : Bool :=
  (!v.isEmpty) && noEdgeWS v && (!v.contains '\n') && (!v.contains '\r')
    && (!hasSub (str "---") v)

/-- Tag/entity lists that survive the round trip: every entry a well-formed field
that moreover avoids the `", "` separator. -/
def wfListField (ts : List Str) : Bool :=
  ts.all (fun t => wfField t && !hasSub (str ", ") t)

/-- Well-formedness of a whole `MemoryItem` for the round-trip theorem
(`confidence` must moreover be a canonical float string; `content` only needs to
be free of edge whitespace, since the parser trims the body). -/
def wfMemoryItem (m : MemoryItem) : Bool :=
  wfField m.id && wfField m.title && wfField m.memory_type
    && wfListField m.tags && wfListField m.entities
    && (wfField m.confidence && isNumTok m.confidence)
    && noEdgeWS m.content

lemma head?_append_left {x : Str} (y : Str) (h : x ≠ []) : (x ++ y).head? = x.head? := by
  cases x with
  | nil => exact absurd rfl h
  | cons c rest => rfl

lemma getLast?_append_right (x : Str) {y : Str} (h : y ≠ []) :
    (x ++ y).getLast? = y.getLast? := by
  rw [← List.head?_reverse, ← List.head?_reverse, List.reverse_append]
  exact head?_append_left _ (by simpa using h)

lemma trim_eq_self {s : Str} (h : noEdgeWS s = true) : trim s = s := by
  unfold noEdgeWS at h
  rw [Bool.and_eq_true] at h
  unfold trim trimLeft trimRight
  have h1 : s.dropWhile rustIsWhitespace = s := by
    cases s with
    | nil => rfl
    | cons c rest =>
      have hc : rustIsWhitespace c = false := by simpa using h.1
      simp [List.dropWhile_cons, hc]
  rw [h1]
  cases hrev : s.reverse with
  | nil =>
    have : s = [] := by simpa using congrArg List.reverse hrev
    simp [this]
  | cons c rest =>
    have hlast : s.getLast? = some c := by rw [← List.head?_reverse, hrev]; rfl
    have hc : rustIsWhitespace c = false := by simpa [hlast] using h.2
    have hs : s = (c :: rest).reverse := by rw [← hrev, List.reverse_reverse]
    rw [List.dropWhile_cons, if_neg (by simp [hc])]
    exact hs.symm

/-- Prefix tests ignore characters beyond the pattern's length. -/
lemma isPrefixOf_append_of_le {p x : Str} (y : Str) (h : p.length ≤ x.length) :
    p.isPrefixOf (x ++ y) = p.isPrefixOf x := by
  cases hp : p.isPrefixOf x with
  | true =>
    exact List.isPrefixOf_iff_prefix.mpr
      ((List.isPrefixOf_iff_prefix.mp hp).trans (List.prefix_append x y))
  | false =>
    cases hq : p.isPrefixOf (x ++ y) with
    | false => rfl
    | true =>
      exfalso
      have h1 : p <+: x ++ y := List.isPrefixOf_iff_prefix.mp hq
      have h2 : p = (x ++ y).take p.length := List.prefix_iff_eq_take.mp h1
      rw [List.take_append_of_le_length h] at h2
      have h3 : p <+: x := by rw [h2]; exact List.take_prefix _ x
      rw [List.isPrefixOf_iff_prefix.mpr h3] at hp
      exact Bool.noConfusion hp

lemma hasSub_tail {sep : Str} {c : Char} {rest : Str}
    (h : hasSub sep (c :: rest) = false) : hasSub sep rest = false := by
  have h' : (sep.isPrefixOf (c :: rest) || hasSub sep rest) = false := h
  exact (Bool.or_eq_false_iff.mp h').2

lemma isPrefixOf_eq_false_of_hasSub {sep s : Str} (h : hasSub sep s = false) :
    sep.isPrefixOf s = false := by
  cases s with
  | nil =>
    have h' : sep.isEmpty = false := h
    cases sep with
    | nil => simp at h'
    | cons a as => rfl
  | cons c rest =>
    have h' : (sep.isPrefixOf (c :: rest) || hasSub sep rest) = false := h
    exact (Bool.or_eq_false_iff.mp h').1

/-- The first occurrence of `sep` in `a ++ sep ++ b` is the displayed one, provided
no occurrence starts inside `a`. -/
lemma splitOnceSub_append (sep a b : Str) (hsep : sep ≠ [])
    (h : hasSub sep (a ++ sep).dropLast = false) :
    splitOnceSub sep (a ++ sep ++ b) = some (a, b) := by
  induction a with
  | nil =>
    cases sep with
    | nil => exact absurd rfl hsep
    | cons s0 srest =>
      have hpre : (s0 :: srest).isPrefixOf ((s0 :: srest) ++ b) = true :=
        List.isPrefixOf_iff_prefix.mpr (List.prefix_append _ _)
      show splitOnceSub (s0 :: srest) ((s0 :: srest) ++ b) = some ([], b)
      simp only [List.cons_append]
      rw [splitOnceSub]
      simp only [← List.cons_append, hpre, if_true]
      simp [List.drop_left]
  | cons c a' ih =>
    have hne : a' ++ sep ≠ [] := by
      intro hh
      exact hsep (List.append_eq_nil.mp hh).2
    have hdl : ((c :: a') ++ sep).dropLast = c :: (a' ++ sep).dropLast := by
      rw [List.cons_append, List.dropLast_cons_of_ne_nil hne]
    rw [hdl] at h
    have hnp0 : sep.isPrefixOf (c :: (a' ++ sep).dropLast) = false :=
      isPrefixOf_eq_false_of_hasSub h
    have hlen : sep.length ≤ (c :: (a' ++ sep).dropLast).length := by
      simp [List.length_dropLast, List.length_append]
      omega
    have hfull : c :: (a' ++ (sep ++ b))
        = (c :: (a' ++ sep).dropLast) ++ ([(a' ++ sep).getLast hne] ++ b) := by
      rw [← List.append_assoc, ← List.cons_append, ← List.cons_append]
      rw [List.cons_append c ((a' ++ sep).dropLast) _]
      rw [← List.append_assoc, List.dropLast_append_getLast hne]
      simp [List.append_assoc]
    have hnp : sep.isPrefixOf (c :: (a' ++ (sep ++ b))) = false := by
      rw [hfull, isPrefixOf_append_of_le _ hlen]
      exact hnp0
    show splitOnceSub sep ((c :: a') ++ sep ++ b) = some (c :: a', b)
    simp only [List.cons_append, List.append_assoc]
    rw [splitOnceSub]
    simp only [hnp, Bool.false_eq_true, if_false]
    have ihv := ih (hasSub_tail h)
    simp only [List.append_assoc] at ihv
    rw [ihv]
    rfl

/-- Substring-freeness composes across append when the right part's first
character does not occur in the pattern. -/
lemma hasSub_append_head (sep x y : Str) (hx : hasSub sep x = false)
    (hy : hasSub sep y = false)
    (hj : y.head?.all (fun c => !sep.contains c) = true) :
    hasSub sep (x ++ y) = false := by
  induction x with
  | nil => simpa using hy
  | cons c x' ih =>
    have hx' := hasSub_tail hx
    show (sep.isPrefixOf (c :: (x' ++ y)) || hasSub sep (x' ++ y)) = false
    rw [ih hx', Bool.or_false]
    cases hq : sep.isPrefixOf (c :: (x' ++ y)) with
    | false => rfl
    | true =>
      exfalso
      by_cases hll : sep.length ≤ (c :: x').length
      · rw [show c :: (x' ++ y) = (c :: x') ++ y from rfl,
          isPrefixOf_append_of_le y hll] at hq
        have hcx : hasSub sep (c :: x') = true := by
          show (sep.isPrefixOf (c :: x') || hasSub sep x') = true
          simp [hq]
        rw [hcx] at hx
        exact Bool.noConfusion hx
      · push_neg at hll
        have hpre : sep <+: c :: (x' ++ y) := List.isPrefixOf_iff_prefix.mp hq
        cases y with
        | nil =>
          have hl := hpre.length_le
          simp [List.length_cons, List.length_append] at hl hll
          omega
        | cons d y' =>
          have hidx : (c :: x').length < sep.length := hll
          have hb1 : (c :: x').length < ((c :: x') ++ d :: y').length := by simp
          have hd1 : ((c :: x') ++ d :: y')[(c :: x').length] = d := by
            rw [List.getElem_append_right (le_refl (c :: x').length)]
            simp
          have hd2 : sep[(c :: x').length] = d := by
            rw [List.IsPrefix.getElem hpre hidx]
            exact hd1
          have hmem : d ∈ sep := by
            rw [← hd2]
            exact List.getElem_mem hidx
          simp [Option.all] at hj
          exact hj hmem

/-- Substring-freeness composes across append when the left part's last character
does not occur in the pattern. -/
lemma hasSub_append_last (sep x y : Str) (hx : hasSub sep x = false)
    (hy : hasSub sep y = false)
    (hj : x.getLast?.all (fun c => !sep.contains c) = true) :
    hasSub sep (x ++ y) = false := by
  induction x with
  | nil => simpa using hy
  | cons c x' ih =>
    have hx' := hasSub_tail hx
    have hj' : x'.getLast?.all (fun c => !sep.contains c) = true := by
      cases hx0 : x' with
      | nil => simp
      | cons e x'' =>
        rw [hx0] at hj
        rw [List.getLast?_cons_cons] at hj
        exact hj
    show (sep.isPrefixOf (c :: (x' ++ y)) || hasSub sep (x' ++ y)) = false
    rw [ih hx' hj', Bool.or_false]
    cases hq : sep.isPrefixOf (c :: (x' ++ y)) with
    | false => rfl
    | true =>
      exfalso
      by_cases hll : sep.length ≤ (c :: x').length
      · rw [show c :: (x' ++ y) = (c :: x') ++ y from rfl,
          isPrefixOf_append_of_le y hll] at hq
        have hcx : hasSub sep (c :: x') = true := by
          show (sep.isPrefixOf (c :: x') || hasSub sep x') = true
          simp [hq]
        rw [hcx] at hx
        exact Bool.noConfusion hx
      · push_neg at hll
        have hpre : sep <+: c :: (x' ++ y) := List.isPrefixOf_iff_prefix.mp hq
        have hidx : x'.length < sep.length := by
          simp [List.length_cons] at hll
          omega
        have hne : c :: x' ≠ [] := by simp
        have hb1 : x'.length < ((c :: x') ++ y).length := by simp; omega
        have hd1 : ((c :: x') ++ y)[x'.length] = (c :: x').getLast hne := by
          rw [List.getElem_append_left (by simp)]
          rw [List.getLast_eq_getElem]
          simp
        have hd2 : sep[x'.length] = (c :: x').getLast hne := by
          rw [List.IsPrefix.getElem hpre hidx]
          exact hd1
        have hmem : (c :: x').getLast hne ∈ sep := by
          rw [← hd2]
          exact List.getElem_mem hidx
        rw [List.getLast?_eq_getLast _ hne] at hj
        simp [Option.all] at hj
        exact hj hmem

lemma splitByP_ne_nil (p : Char → Bool) (s : Str) : splitByP p s ≠ [] := by
  cases s with
  | nil => simp [splitByP]
  | cons c rest =>
    simp only [splitByP]
    cases hpc : p c with
    | true => simp
    | false =>
      simp only [Bool.false_eq_true, if_false]
      cases splitByP p rest <;> simp

/-- Splitting at a separator character after a separator-free chunk. -/
lemma splitByP_sep (p : Char → Bool) (x y : Str) (c0 : Char) (hc : p c0 = true)
    (hx : ∀ c ∈ x, p c = false) :
    splitByP p (x ++ c0 :: y) = x :: splitByP p y := by
  induction x with
  | nil => simp [splitByP, hc]
  | cons c x' ih =>
    have hcf : p c = false := hx c (List.mem_cons_self c x')
    have ih' := ih (fun d hd => hx d (List.mem_cons_of_mem c hd))
    simp only [List.cons_append, splitByP, hcf, Bool.false_eq_true, if_false,
      List.append_eq, ih']

/-- A separator-free string splits to itself. -/
lemma splitByP_no_sep (p : Char → Bool) (x : Str) (hx : ∀ c ∈ x, p c = false) :
    splitByP p x = [x] := by
  induction x with
  | nil => rfl
  | cons c x' ih =>
    have hcf : p c = false := hx c (List.mem_cons_self c x')
    simp only [splitByP, hcf, Bool.false_eq_true, if_false,
      ih (fun d hd => hx d (List.mem_cons_of_mem c hd))]

lemma pair_cond_eq_false {c d : Char} {rest : Str}
    (h : (str ", ").isPrefixOf (c :: d :: rest) = false) :
    (decide (c = ',') && decide (d = ' ')) = false := by
  cases hc : decide (c = ',') with
  | false => rfl
  | true =>
    cases hd : decide (d = ' ') with
    | false => simp
    | true =>
      exfalso
      have hc' := of_decide_eq_true hc
      have hd' := of_decide_eq_true hd
      subst hc'
      subst hd'
      rw [show (str ", ") = [',', ' '] from rfl] at h
      simp [List.isPrefixOf] at h

/-- A `", "`-free string is a single piece for `split(", ")`. -/
lemma splitCS_no_sep (t : Str) (h : hasSub (str ", ") t = false) :
    splitCommaSpace t = [t] := by
  induction t with
  | nil => rfl
  | cons c t' ih =>
    cases t' with
    | nil => rfl
    | cons d t'' =>
      have hcd := pair_cond_eq_false (isPrefixOf_eq_false_of_hasSub h)
      have ih' := ih (hasSub_tail h)
      simp only [splitCommaSpace, hcd, Bool.false_eq_true, if_false, ih']

/-- Splitting at the first `", "` after a `", "`-free chunk. -/
lemma splitCS_append (t r : Str) (ht : hasSub (str ", ") t = false) :
    splitCommaSpace (t ++ ',' :: ' ' :: r) = t :: splitCommaSpace r := by
  induction t with
  | nil =>
    show splitCommaSpace (',' :: ' ' :: r) = [] :: splitCommaSpace r
    simp [splitCommaSpace]
  | cons c t' ih =>
    have ih' := ih (hasSub_tail ht)
    cases t' with
    | nil =>
      have hcd : (decide (c = ',') && decide ((',' : Char) = ' ')) = false := by
        simp
      show splitCommaSpace (c :: ',' :: ' ' :: r) = [c] :: splitCommaSpace r
      simp only [splitCommaSpace, hcd, Bool.false_eq_true, if_false]
      simp
    | cons e t'' =>
      have hcd := pair_cond_eq_false (isPrefixOf_eq_false_of_hasSub ht)
      show splitCommaSpace (c :: e :: (t'' ++ ',' :: ' ' :: r))
          = (c :: e :: t'') :: splitCommaSpace r
      simp only [splitCommaSpace, hcd, Bool.false_eq_true, if_false]
      have he : splitCommaSpace (e :: (t'' ++ ',' :: ' ' :: r))
          = (e :: t'') :: splitCommaSpace r := ih'
      rw [he]

/-- Round trip of `join(", ")` and `split(", ")` on `", "`-free entries. -/
lemma splitCS_joinSep (ts : List Str) (h : ∀ t ∈ ts, hasSub (str ", ") t = false)
    (hne : ts ≠ []) : splitCommaSpace (joinSep (str ", ") ts) = ts := by
  induction ts with
  | nil => exact absurd rfl hne
  | cons t ts' ih =>
    cases ts' with
    | nil => exact splitCS_no_sep t (h t (by simp))
    | cons t2 rest =>
      have hj : joinSep (str ", ") (t :: t2 :: rest)
          = t ++ ',' :: ' ' :: joinSep (str ", ") (t2 :: rest) := by
        show t ++ (str ", ") ++ joinSep (str ", ") (t2 :: rest) = _
        rw [show (str ", ") = [',', ' '] from rfl]
        simp [List.append_assoc]
      rw [hj, splitCS_append _ _ (h t (by simp))]
      rw [ih (fun u hu => h u (by simp [hu])) (by simp)]

/-! ## Decimal round trip for `i64` timestamps -/

lemma digitCh_toNat {d : Nat} (h : d < 10) : (digitCh d).toNat = 48 + d := by
  interval_cases d <;> decide

lemma isDigitCh_digitCh {d : Nat} (h : d < 10) : isDigitCh (digitCh d) = true := by
  interval_cases d <;> decide

lemma natDigitsRev_all_digit (fuel n : Nat) :
    (natDigitsRev fuel n).all isDigitCh = true := by
  induction fuel generalizing n with
  | zero => rfl
  | succ fuel ih =>
    rw [natDigitsRev]
    by_cases h : n = 0
    · simp [h]
    · simp [h, isDigitCh_digitCh (Nat.mod_lt n (by omega)), ih]

lemma natDigitsRev_spec (fuel : Nat) :
    ∀ n acc, n ≤ fuel →
      ((natDigitsRev fuel n).reverse).foldl (fun a c => 10 * a + (c.toNat - 48)) acc
        = acc * 10 ^ (natDigitsRev fuel n).length + n := by
  induction fuel with
  | zero =>
    intro n acc h
    have hn : n = 0 := by omega
    subst hn
    simp [natDigitsRev]
  | succ fuel ih =>
    intro n acc h
    rw [natDigitsRev]
    by_cases h0 : n = 0
    · simp [h0]
    · rw [if_neg h0]
      rw [List.reverse_cons, List.foldl_append]
      have hdle : n / 10 ≤ fuel := by
        have := Nat.div_lt_self (Nat.pos_of_ne_zero h0) (by omega : 1 < 10)
        omega
      rw [ih (n / 10) acc hdle]
      simp only [List.foldl_cons, List.foldl_nil, List.length_cons]
      rw [digitCh_toNat (Nat.mod_lt _ (by omega))]
      have hsub : 48 + n % 10 - 48 = n % 10 := by omega
      rw [hsub, pow_succ]
      have hsplit : 10 * (acc * 10 ^ (natDigitsRev fuel (n / 10)).length + n / 10)
          + n % 10
          = acc * (10 ^ (natDigitsRev fuel (n / 10)).length * 10)
            + (10 * (n / 10) + n % 10) := by ring
      rw [hsplit]
      omega

lemma parseNat_natToStr (n : Nat) : parseNat (natToStr n) = n := by
  unfold natToStr parseNat
  by_cases h : n = 0
  · subst h
    decide
  · rw [if_neg h]
    have hs := natDigitsRev_spec n n 0 le_rfl
    simpa using hs

lemma natToStr_all_digit (n : Nat) : (natToStr n).all isDigitCh = true := by
  unfold natToStr
  by_cases h : n = 0
  · subst h
    decide
  · rw [if_neg h, List.all_reverse]
    exact natDigitsRev_all_digit n n

lemma natToStr_ne_nil (n : Nat) : natToStr n ≠ [] := by
  unfold natToStr
  by_cases h : n = 0
  · simp [h]
  · rw [if_neg h]
    simp only [ne_eq, List.reverse_eq_nil_iff]
    obtain ⟨k, rfl⟩ : ∃ k, n = k + 1 := ⟨n - 1, by omega⟩
    rw [natDigitsRev]
    simp [h]

lemma isWhitespace_eq_false_of_digit {c : Char} (h : isDigitCh c = true) :
    rustIsWhitespace c = false := by
  unfold isDigitCh at h
  rw [Bool.and_eq_true] at h
  have h1 : 48 ≤ c.toNat := by simpa using h.1
  have h2 : c.toNat ≤ 57 := by simpa using h.2
  unfold rustIsWhitespace
  rw [decide_eq_false_iff_not]
  omega

lemma contains_eq_false_of_all_digit {s : Str} {c : Char} (h : s.all isDigitCh = true)
    (hc : isDigitCh c = false) : s.contains c = false := by
  cases hq : s.contains c with
  | false => rfl
  | true =>
    exfalso
    have hmem : c ∈ s := by simpa using hq
    have hd := List.all_eq_true.mp h c hmem
    rw [hd] at hc
    exact Bool.noConfusion hc

lemma beq_dash_eq_false_of_digit {c : Char} (h : isDigitCh c = true) :
    (('-' : Char) == c) = false := by
  cases hq : (('-' : Char) == c) with
  | false => rfl
  | true =>
    exfalso
    have he : ('-' : Char) = c := by simpa using hq
    rw [← he] at h
    exact absurd h (by decide)

lemma hasSub_ddd_digits {s : Str} (h : s.all isDigitCh = true) :
    hasSub (str "---") s = false := by
  induction s with
  | nil => decide
  | cons c rest ih =>
    rw [List.all_cons, Bool.and_eq_true] at h
    show ((str "---").isPrefixOf (c :: rest) || hasSub (str "---") rest) = false
    rw [ih h.2, Bool.or_false]
    rw [show (str "---") = ['-', '-', '-'] from rfl]
    show ((('-' : Char) == c) && ['-', '-'].isPrefixOf rest) = false
    rw [beq_dash_eq_false_of_digit h.1, Bool.false_and]

lemma hasSub_ddd_dash_digits {s : Str} (h : s.all isDigitCh = true) (hne : s ≠ []) :
    hasSub (str "---") ('-' :: s) = false := by
  show ((str "---").isPrefixOf ('-' :: s) || hasSub (str "---") s) = false
  rw [hasSub_ddd_digits h, Bool.or_false]
  cases s with
  | nil => exact absurd rfl hne
  | cons c rest =>
    have hc : isDigitCh c = true := by
      rw [List.all_cons, Bool.and_eq_true] at h
      exact h.1
    rw [show (str "---") = ['-', '-', '-'] from rfl]
    show ((('-' : Char) == '-') && ((('-' : Char) == c)
      && ['-'].isPrefixOf rest)) = false
    rw [beq_dash_eq_false_of_digit hc, Bool.false_and, Bool.and_false]

lemma head?_all_of_all {p : Char → Bool} {s : Str} (h : s.all p = true) :
    s.head?.all p = true := by
  cases s with
  | nil => rfl
  | cons c rest =>
    rw [List.all_cons, Bool.and_eq_true] at h
    simpa using h.1

lemma getLast?_all_of_all {p : Char → Bool} {s : Str} (h : s.all p = true) :
    s.getLast?.all p = true := by
  rw [← List.head?_reverse]
  exact head?_all_of_all (by rwa [List.all_reverse])

lemma opt_all_mono {p q : Char → Bool} {o : Option Char} (h : o.all p = true)
    (himp : ∀ c, p c = true → q c = true) : o.all q = true := by
  cases o with
  | none => rfl
  | some c =>
    simp only [Option.all] at h ⊢
    exact himp c h

lemma ne_dash_of_digit {c : Char} (h : isDigitCh c = true) : ¬(c = '-') := by
  intro he
  subst he
  exact absurd h (by decide)

lemma ne_plus_of_digit {c : Char} (h : isDigitCh c = true) : ¬(c = '+') := by
  intro he
  subst he
  exact absurd h (by decide)

lemma parseInt?_cons (c : Char) (rest : Str) :
    parseInt? (c :: rest)
      = (if c = '-' then
          (if (!rest.isEmpty) && rest.all isDigitCh
            then some (-(parseNat rest : Int)) else none)
        else if c = '+' then
          (if (!rest.isEmpty) && rest.all isDigitCh
            then some ((parseNat rest : Nat) : Int) else none)
        else if (c :: rest).all isDigitCh
          then some ((parseNat (c :: rest) : Nat) : Int)
        else none) := rfl

lemma parseInt?_digits {s : Str} (hne : s ≠ []) (h : s.all isDigitCh = true) :
    parseInt? s = some ((parseNat s : Nat) : Int) := by
  cases s with
  | nil => exact absurd rfl hne
  | cons c rest =>
    have hc : isDigitCh c = true := by
      rw [List.all_cons, Bool.and_eq_true] at h
      exact h.1
    rw [parseInt?_cons, if_neg (ne_dash_of_digit hc), if_neg (ne_plus_of_digit hc),
      if_pos h]

/-- Round trip of the `Display`/`parse` pair on `i64` timestamps. -/
lemma parseInt?_intToStr (t : Int) : parseInt? (intToStr t) = some t := by
  unfold intToStr
  by_cases h : t < 0
  · rw [if_pos h]
    rw [parseInt?_cons, if_pos rfl]
    rw [if_pos (by simp [natToStr_ne_nil, natToStr_all_digit])]
    rw [parseNat_natToStr]
    congr 1
    omega
  · rw [if_neg h, parseInt?_digits (natToStr_ne_nil _) (natToStr_all_digit _)]
    rw [parseNat_natToStr]
    congr 1
    omega

/-- Properties of the rendered timestamp needed by the round trip. -/
lemma intToStr_props (t : Int) :
    intToStr t ≠ [] ∧ (intToStr t).contains '\n' = false
      ∧ (intToStr t).contains '\r' = false
      ∧ hasSub (str "---") (intToStr t) = false
      ∧ noEdgeWS (intToStr t) = true := by
  unfold intToStr
  by_cases h : t < 0
  · rw [if_pos h]
    have hall := natToStr_all_digit t.natAbs
    have hne := natToStr_ne_nil t.natAbs
    refine ⟨by simp, ?_, ?_, hasSub_ddd_dash_digits hall hne, ?_⟩
    · have h1 := contains_eq_false_of_all_digit hall
        (show isDigitCh '\n' = false by decide)
      simp at h1 ⊢
      exact h1
    · have h1 := contains_eq_false_of_all_digit hall
        (show isDigitCh '\x0d' = false by decide)
      simp at h1 ⊢
      exact h1
    · unfold noEdgeWS
      rw [Bool.and_eq_true]
      refine ⟨rfl, ?_⟩
      rw [show ('-' :: natToStr t.natAbs) = ['-'] ++ natToStr t.natAbs from rfl,
        getLast?_append_right _ hne]
      exact opt_all_mono (getLast?_all_of_all hall)
        (fun c hc => by simp [isWhitespace_eq_false_of_digit hc])
  · rw [if_neg h]
    have hall := natToStr_all_digit t.toNat
    have hne := natToStr_ne_nil t.toNat
    refine ⟨hne, ?_, ?_, hasSub_ddd_digits hall, ?_⟩
    · exact contains_eq_false_of_all_digit hall (by decide)
    · exact contains_eq_false_of_all_digit hall (by decide)
    · unfold noEdgeWS
      rw [Bool.and_eq_true]
      constructor
      · exact opt_all_mono (head?_all_of_all hall)
          (fun c hc => by simp [isWhitespace_eq_false_of_digit hc])
      · exact opt_all_mono (getLast?_all_of_all hall)
          (fun c hc => by simp [isWhitespace_eq_false_of_digit hc])

/-! ## Memory store (`memory.rs`) -/

/-- The frontmatter lines written by `memory.rs::save_memory`: one `key: value`
line per field, with lists joined by `", "`; `Display` of the `f32` is the
identity in the canonical-string model and `Display` of the `i64` timestamp is
`intToStr`. -/
def fm_lines (m : MemoryItem) : List Str :=
  [ (str "id: ") ++ m.id,
    (str "title: ") ++ m.title,
    (str "type: ") ++ m.memory_type,
    (str "tags: ") ++ joinSep (str ", ") m.tags,
    (str "entities: ") ++ joinSep (str ", ") m.entities,
    (str "confidence: ") ++ m.confidence,
    (str "timestamp: ") ++ intToStr m.timestamp ]

/-- A frontmatter block between `---` delimiters followed by a blank line and the
body: newline, then each line, each preceded by a newline... precisely the layout
`"---" ++ "\n<line1>" ++ … ++ "\n<line7>" ++ "\n" ++ "---\n\n" ++ body`. -/
def mk_memory_file (lines : List Str) (body : Str) : Str :=
  (str "---") ++ (((lines.map (fun l => '\n' :: l)).flatten) ++ ['\n'])
    ++ (str "---\n\n") ++ body

/-- Rust `memory.rs::save_memory`'s file contents. -/
def render_memory (m : MemoryItem) : Str := mk_memory_file (fm_lines m) m.content

/-- `render_memory` spelled as the flat `format!` template of the source:
`"---\nid: {}\ntitle: {}\ntype: {}\ntags: {}\nentities: {}\nconfidence: {}\ntimestamp: {}\n---\n\n{}"`. -/
lemma render_memory_eq (m : MemoryItem) :
    render_memory m
      = (str "---\nid: ") ++ m.id ++ (str "\ntitle: ") ++ m.title
        ++ (str "\ntype: ") ++ m.memory_type
        ++ (str "\ntags: ") ++ joinSep (str ", ") m.tags
        ++ (str "\nentities: ") ++ joinSep (str ", ") m.entities
        ++ (str "\nconfidence: ") ++ m.confidence
        ++ (str "\ntimestamp: ") ++ intToStr m.timestamp
        ++ (str "\n---\n\n") ++ m.content := by
  rw [show (str "---\nid: ") = (str "---") ++ '\n' :: (str "id: ") from rfl,
    show (str "\ntitle: ") = '\n' :: (str "title: ") from rfl,
    show (str "\ntype: ") = '\n' :: (str "type: ") from rfl,
    show (str "\ntags: ") = '\n' :: (str "tags: ") from rfl,
    show (str "\nentities: ") = '\n' :: (str "entities: ") from rfl,
    show (str "\nconfidence: ") = '\n' :: (str "confidence: ") from rfl,
    show (str "\ntimestamp: ") = '\n' :: (str "timestamp: ") from rfl,
    show (str "\n---\n\n") = '\n' :: (str "---\n\n") from rfl]
  simp [render_memory, mk_memory_file, fm_lines, List.append_assoc]

/-- One trailing carriage return is stripped per line by Rust `str::lines`. -/
def stripCR (l : Str) : Str := if l.getLast? = some '\x0d' then l.dropLast else l

/-- Rust `str::lines`: split on `'\n'`; a trailing newline terminates the final
line instead of opening an empty one; a trailing `'\x0d'` is stripped per line. -/
def rustLines (s : Str) : List Str :=
  let ps := splitByP (fun c => decide (c = '\n')) s
  (if ps.getLast? = some [] then ps.dropLast else ps).map stripCR

/-- One iteration of the frontmatter loop of `parse_markdown_memory`: trim the
line, split at the first `": "`, trim the value, update the matching field. -/
def parse_fm_line (st : MemoryItem) (line : Str) : MemoryItem :=
  let l := trim line
  match splitOnceSub (str ": ") l with
  | none => st
  | some kv =>
    let value := trim kv.2
    if kv.1 == str "id" then { st with id := value }
    else if kv.1 == str "title" then { st with title := value }
    else if kv.1 == str "type" then { st with memory_type := value }
    else if kv.1 == str "tags" then { st with tags := splitCommaSpace value }
    else if kv.1 == str "entities" then { st with entities := splitCommaSpace value }
    else if kv.1 == str "confidence" then { st with confidence := parseConfOr1 value }
    else if kv.1 == str "timestamp" then
      { st with timestamp := (parseInt? value).getD 0 }
    else st

/-- The parser's initial field values (`confidence` defaults to `1.0`, written
`"1"` in the canonical-string model; `timestamp` to `0`; lists to empty). -/
def parse_init (default_type : Str) : MemoryItem :=
  ⟨[], [], [], default_type, 0, [], [], str "1"⟩

/-- Rust `memory.rs::parse_markdown_memory`. -/
def parse_markdown_memory (content : Str) (default_type : Str) : Option MemoryItem :=
  if !(str "---").isPrefixOf content then none
  else
    match splitnThree (str "---") content with
    | [_p0, frontmatter, body0] =>
      let body := trim body0
      let st := (rustLines frontmatter).foldl parse_fm_line (parse_init default_type)
      if st.id.isEmpty || st.title.isEmpty then none
      else some { st with content := body }
    | _ => none

/-- The four physical memory partitions, as lists of `.md` file contents. -/
structure MemFS where
  work : List Str
  learning : List Str
  relationship : List Str
  general : List Str
deriving Repr

/-- The empty store. -/
def emptyMemFS : MemFS := ⟨[], [], [], []⟩

/-- Rust `memory.rs::save_memory`'s disk effect: write the rendered file into the
partition selected by `memory_type`. (`fs::write` overwrites an existing
`{id}.md`; the claims below only save into stores that do not already hold the
id, so a write is modelled as appending the file.) -/
def save_memory (memory : MemoryItem) (fs : MemFS) : MemFS :=
  if memory.memory_type == str "WORK" then
    { fs with work := fs.work ++ [render_memory memory] }
  else if memory.memory_type == str "LEARNING" then
    { fs with learning := fs.learning ++ [render_memory memory] }
  else if memory.memory_type == str "RELATIONSHIP" then
    { fs with relationship := fs.relationship ++ [render_memory memory] }
  else { fs with general := fs.general ++ [render_memory memory] }

/-- Stable insertion for the descending-by-timestamp sort. -/
def insertTsDesc (x : MemoryItem) : List MemoryItem → List MemoryItem
  | [] => [x]
  | y :: ys =>
    if x.timestamp < y.timestamp then y :: insertTsDesc x ys else x :: y :: ys

/-- Rust's stable `sort_by(|a, b| b.timestamp.cmp(&a.timestamp))` (descending by
timestamp, original order preserved among equal keys). -/
def sortTsDesc : List MemoryItem → List MemoryItem
  | [] => []
  | x :: xs => insertTsDesc x (sortTsDesc xs)

/-- One directory scan of `load_memories_from_disk`: parse every file, silently
skipping files that do not parse. -/
def loadDir (files : List Str) (mem_type : Str) : List MemoryItem :=
  files.filterMap (fun content => parse_markdown_memory content mem_type)

/-- Rust `memory.rs::load_memories_from_disk`: scan the four partitions in source
order, then sort descending by timestamp. The in-memory index is replaced by this
result; filesystem errors are outside the model, and no parse failure ever
surfaces as an error. -/
def load_memories_from_disk (fs : MemFS) : List MemoryItem :=
  sortTsDesc (loadDir fs.work (str "WORK") ++ loadDir fs.learning (str "LEARNING")
    ++ loadDir fs.relationship (str "RELATIONSHIP")
    ++ loadDir fs.general (str "general"))

/-! ## Symbolic evaluation of `parse_markdown_memory` on rendered files -/

/-- Conditions letting a frontmatter line pass `rustLines` unchanged and keep the
`---` delimiters unambiguous. -/
def lineOk (l : Str) : Bool :=
  (!l.contains '\n') && (!(l.getLast? == some '\x0d'))
    && (!hasSub (str "---") l)

lemma stripCR_eq_self {l : Str} (h : (l.getLast? == some '\x0d') = false) :
    stripCR l = l := by
  unfold stripCR
  rw [if_neg]
  intro he
  rw [he] at h
  simp at h

lemma map_id_of_mem {f : Str → Str} {ls : List Str} (h : ∀ l ∈ ls, f l = l) :
    ls.map f = ls := by
  induction ls with
  | nil => rfl
  | cons l ls ih =>
    rw [List.map_cons, h l (List.mem_cons_self l ls),
      ih (fun u hu => h u (List.mem_cons_of_mem l hu))]

lemma splitByP_nl_step (z : Str) :
    splitByP (fun c => decide (c = '\n')) ('\n' :: z)
      = [] :: splitByP (fun c => decide (c = '\n')) z := by
  simp [splitByP]

lemma splitNl_block (lines : List Str) (h : ∀ l ∈ lines, l.contains '\n' = false) :
    splitByP (fun c => decide (c = '\n'))
        ((lines.map (fun l => '\n' :: l)).flatten ++ ['\n'])
      = [] :: (lines ++ [[]]) := by
  induction lines with
  | nil => decide
  | cons l ls ih =>
    have hl : ∀ c ∈ l, decide (c = '\n') = false := by
      intro c hc
      have hnm : ¬ '\n' ∈ l := by simpa using h l (List.mem_cons_self l ls)
      simp only [decide_eq_false_iff_not]
      intro he
      exact hnm (he ▸ hc)
    have ih' := ih (fun u hu => h u (List.mem_cons_of_mem l hu))
    obtain ⟨Y, hY⟩ : ∃ Y, (ls.map (fun l => '\n' :: l)).flatten ++ ['\n']
        = '\n' :: Y := by
      cases ls with
      | nil => exact ⟨[], rfl⟩
      | cons l2 ls' =>
        exact ⟨l2 ++ ((ls'.map (fun l => '\n' :: l)).flatten ++ ['\n']), by simp⟩
    have hb : ((l :: ls).map (fun l => '\n' :: l)).flatten ++ ['\n']
        = '\n' :: (l ++ '\n' :: Y) := by
      rw [List.map_cons, List.flatten_cons]
      rw [show (('\n' :: l) ++ (ls.map (fun l => '\n' :: l)).flatten) ++ ['\n']
          = '\n' :: (l ++ ((ls.map (fun l => '\n' :: l)).flatten ++ ['\n'])) from by
        simp [List.append_assoc]]
      rw [hY]
    rw [hb, splitByP_nl_step, splitByP_sep _ _ _ _ (by decide) hl]
    rw [hY, splitByP_nl_step] at ih'
    have ih2 : splitByP (fun c => decide (c = '\n')) Y = ls ++ [[]] := by
      simpa using ih'
    rw [ih2]
    rfl

lemma rustLines_block (lines : List Str) (h : ∀ l ∈ lines, lineOk l = true) :
    rustLines ((lines.map (fun l => '\n' :: l)).flatten ++ ['\n']) = [] :: lines := by
  have hnl : ∀ l ∈ lines, l.contains '\n' = false := by
    intro l hl
    have hx := h l hl
    unfold lineOk at hx
    rw [Bool.and_eq_true, Bool.and_eq_true] at hx
    simpa using hx.1.1
  simp only [rustLines]
  rw [splitNl_block lines hnl]
  rw [show ([] :: (lines ++ [[]]) : List Str) = ([] :: lines) ++ [[]] from by simp]
  rw [List.getLast?_concat, if_pos rfl, List.dropLast_concat]
  apply map_id_of_mem
  intro l hl
  rcases List.mem_cons.mp hl with he | hm
  · subst he
    rfl
  · apply stripCR_eq_self
    have hx := h l hm
    unfold lineOk at hx
    rw [Bool.and_eq_true, Bool.and_eq_true] at hx
    simpa using hx.1.2

lemma hasSub_ddd_block (lines : List Str)
    (h : ∀ l ∈ lines, hasSub (str "---") l = false) :
    hasSub (str "---") ((lines.map (fun l => '\n' :: l)).flatten ++ ['\n'])
      = false := by
  induction lines with
  | nil => decide
  | cons l ls ih =>
    have ihv := ih (fun u hu => h u (List.mem_cons_of_mem l hu))
    have hx : hasSub (str "---") ('\n' :: l) = false := by
      show ((str "---").isPrefixOf ('\n' :: l) || hasSub (str "---") l) = false
      rw [h l (List.mem_cons_self l ls), Bool.or_false]
      rw [show (str "---") = ['-', '-', '-'] from rfl]
      show ((('-' : Char) == '\n') && ['-', '-'].isPrefixOf l) = false
      rw [show (('-' : Char) == '\n') = false from by decide, Bool.false_and]
    have hrw : ((l :: ls).map (fun l => '\n' :: l)).flatten ++ ['\n']
        = ('\n' :: l) ++ ((ls.map (fun l => '\n' :: l)).flatten ++ ['\n']) := by
      simp [List.append_assoc]
    rw [hrw]
    apply hasSub_append_head _ _ _ hx ihv
    obtain ⟨Y, hY⟩ : ∃ Y, (ls.map (fun l => '\n' :: l)).flatten ++ ['\n']
        = '\n' :: Y := by
      cases ls with
      | nil => exact ⟨[], rfl⟩
      | cons l2 ls' =>
        exact ⟨l2 ++ ((ls'.map (fun l => '\n' :: l)).flatten ++ ['\n']), by simp⟩
    rw [hY]
    rfl

lemma trim_nl_nl {b : Str} (hb : noEdgeWS b = true) : trim ('\n' :: '\n' :: b) = b := by
  have h1 : trimLeft ('\n' :: '\n' :: b) = trimLeft b := by
    unfold trimLeft
    rw [List.dropWhile_cons, if_pos (by decide), List.dropWhile_cons,
      if_pos (by decide)]
  show trimRight (trimLeft ('\n' :: '\n' :: b)) = b
  rw [h1]
  exact trim_eq_self hb

/-- Symbolic evaluation of the parser on a rendered file: the result is the
frontmatter fold guarded by the empty-id/title check, with the body trimmed back
to `body`. -/
lemma parse_mk_memory_file (lines : List Str) (body : Str) (d : Str)
    (h : ∀ l ∈ lines, lineOk l = true) (hb : noEdgeWS body = true) :
    parse_markdown_memory (mk_memory_file lines body) d
      = (if (lines.foldl parse_fm_line (parse_init d)).id.isEmpty
            || (lines.foldl parse_fm_line (parse_init d)).title.isEmpty then none
        else some { (lines.foldl parse_fm_line (parse_init d)) with
          content := body }) := by
  have hddd : ∀ l ∈ lines, hasSub (str "---") l = false := by
    intro l hl
    have hx := h l hl
    unfold lineOk at hx
    rw [Bool.and_eq_true, Bool.and_eq_true] at hx
    simpa using hx.2
  have hpre : (str "---").isPrefixOf (mk_memory_file lines body) = true := by
    unfold mk_memory_file
    refine List.isPrefixOf_iff_prefix.mpr ?_
    rw [List.append_assoc, List.append_assoc]
    exact List.prefix_append _ _
  have hsplit1 : splitOnceSub (str "---") (mk_memory_file lines body)
      = some ([], ((lines.map (fun l => '\n' :: l)).flatten ++ ['\n'])
          ++ ((str "---") ++ ('\n' :: '\n' :: body))) := by
    have hmk : mk_memory_file lines body
        = [] ++ (str "---") ++ (((lines.map (fun l => '\n' :: l)).flatten ++ ['\n'])
            ++ ((str "---") ++ ('\n' :: '\n' :: body))) := by
      unfold mk_memory_file
      rw [show (str "---\n\n") = (str "---") ++ '\n' :: '\n' :: ([] : Str) from rfl]
      simp [List.append_assoc]
    rw [hmk]
    exact splitOnceSub_append _ _ _ (by decide) (by decide)
  have hblocksub := hasSub_ddd_block lines hddd
  have hsplit2 : splitOnceSub (str "---")
      (((lines.map (fun l => '\n' :: l)).flatten ++ ['\n'])
        ++ ((str "---") ++ ('\n' :: '\n' :: body)))
      = some ((lines.map (fun l => '\n' :: l)).flatten ++ ['\n'],
          '\n' :: '\n' :: body) := by
    rw [← List.append_assoc]
    apply splitOnceSub_append _ _ _ (by decide)
    rw [List.dropLast_append_of_ne_nil _ (by decide)]
    rw [show (str "---").dropLast = ['-', '-'] from rfl]
    apply hasSub_append_last _ _ _ hblocksub (by decide)
    rw [List.getLast?_concat]
    rfl
  unfold parse_markdown_memory splitnThree
  simp only [hpre, Bool.not_true, Bool.false_eq_true, if_false, hsplit1, hsplit2]
  rw [rustLines_block lines h]
  rw [List.foldl_cons]
  rw [show parse_fm_line (parse_init d) [] = parse_init d from rfl]
  rw [trim_nl_nl hb]

lemma contains_append_eq (x y : Str) (c : Char) :
    (x ++ y).contains c = (x.contains c || y.contains c) := by
  simp [List.contains_eq_any_beq, List.any_append]

lemma wfField_parts {v : Str} (h : wfField v = true) :
    v ≠ [] ∧ noEdgeWS v = true ∧ v.contains '\n' = false
      ∧ v.contains '\x0d' = false ∧ hasSub (str "---") v = false := by
  unfold wfField at h
  rw [Bool.and_eq_true, Bool.and_eq_true, Bool.and_eq_true, Bool.and_eq_true] at h
  refine ⟨?_, h.1.1.1.2, ?_, ?_, ?_⟩
  · have := h.1.1.1.1
    simpa [List.isEmpty_iff] using this
  · simpa using h.1.1.2
  · simpa using h.1.2
  · simpa using h.2

lemma wfListField_parts {ts : List Str} (h : wfListField ts = true) :
    ∀ t ∈ ts, wfField t = true ∧ hasSub (str ", ") t = false := by
  intro t ht
  have hx := List.all_eq_true.mp h t ht
  rw [Bool.and_eq_true] at hx
  exact ⟨hx.1, by simpa using hx.2⟩

lemma parseConfOr1_eq_self {v : Str} (h : isNumTok v = true) : parseConfOr1 v = v := by
  unfold parseConfOr1
  rw [if_pos h]

lemma noEdgeWS_head {v : Str} (h : noEdgeWS v = true) :
    v.head?.all (fun c => !rustIsWhitespace c) = true := by
  unfold noEdgeWS at h
  rw [Bool.and_eq_true] at h
  exact h.1

lemma noEdgeWS_last {v : Str} (h : noEdgeWS v = true) :
    v.getLast?.all (fun c => !rustIsWhitespace c) = true := by
  unfold noEdgeWS at h
  rw [Bool.and_eq_true] at h
  exact h.2

/-- A well-placed `key: value` line parses into the field update selected by the
key. -/
lemma parse_fm_line_keyval (st : MemoryItem) (k v : Str)
    (hk1 : k.head?.all (fun c => !rustIsWhitespace c) = true)
    (hk2 : k ≠ [])
    (hk3 : hasSub (str ": ") ((k ++ (str ": ")).dropLast) = false)
    (hv : noEdgeWS v = true) (hvne : v ≠ []) :
    parse_fm_line st (k ++ (str ": ") ++ v)
      = (if k == str "id" then { st with id := v }
        else if k == str "title" then { st with title := v }
        else if k == str "type" then { st with memory_type := v }
        else if k == str "tags" then { st with tags := splitCommaSpace v }
        else if k == str "entities" then { st with entities := splitCommaSpace v }
        else if k == str "confidence" then { st with confidence := parseConfOr1 v }
        else if k == str "timestamp" then
          { st with timestamp := (parseInt? v).getD 0 }
        else st) := by
  unfold parse_fm_line
  have htrim : trim (k ++ (str ": ") ++ v) = k ++ (str ": ") ++ v := by
    apply trim_eq_self
    unfold noEdgeWS
    rw [Bool.and_eq_true]
    constructor
    · rw [List.append_assoc, head?_append_left _ hk2]
      exact hk1
    · rw [getLast?_append_right _ hvne]
      exact noEdgeWS_last hv
  rw [htrim]
  simp only [splitOnceSub_append (str ": ") k v (by decide) hk3, trim_eq_self hv]

lemma parse_fm_line_id (st : MemoryItem) {v : Str} (hv : noEdgeWS v = true)
    (hvne : v ≠ []) : parse_fm_line st ((str "id: ") ++ v) = { st with id := v } := by
  rw [show (str "id: ") = (str "id") ++ (str ": ") from rfl]
  rw [parse_fm_line_keyval st (str "id") v (by decide) (by decide) (by decide) hv hvne]
  rfl

lemma parse_fm_line_title (st : MemoryItem) {v : Str} (hv : noEdgeWS v = true)
    (hvne : v ≠ []) :
    parse_fm_line st ((str "title: ") ++ v) = { st with title := v } := by
  rw [show (str "title: ") = (str "title") ++ (str ": ") from rfl]
  rw [parse_fm_line_keyval st (str "title") v (by decide) (by decide) (by decide)
    hv hvne]
  rfl

lemma parse_fm_line_type (st : MemoryItem) {v : Str} (hv : noEdgeWS v = true)
    (hvne : v ≠ []) :
    parse_fm_line st ((str "type: ") ++ v) = { st with memory_type := v } := by
  rw [show (str "type: ") = (str "type") ++ (str ": ") from rfl]
  rw [parse_fm_line_keyval st (str "type") v (by decide) (by decide) (by decide)
    hv hvne]
  rfl

lemma parse_fm_line_tags (st : MemoryItem) {v : Str} (hv : noEdgeWS v = true)
    (hvne : v ≠ []) :
    parse_fm_line st ((str "tags: ") ++ v) = { st with tags := splitCommaSpace v } := by
  rw [show (str "tags: ") = (str "tags") ++ (str ": ") from rfl]
  rw [parse_fm_line_keyval st (str "tags") v (by decide) (by decide) (by decide)
    hv hvne]
  rfl

lemma parse_fm_line_entities (st : MemoryItem) {v : Str} (hv : noEdgeWS v = true)
    (hvne : v ≠ []) :
    parse_fm_line st ((str "entities: ") ++ v)
      = { st with entities := splitCommaSpace v } := by
  rw [show (str "entities: ") = (str "entities") ++ (str ": ") from rfl]
  rw [parse_fm_line_keyval st (str "entities") v (by decide) (by decide) (by decide)
    hv hvne]
  rfl

lemma parse_fm_line_confidence (st : MemoryItem) {v : Str} (hv : noEdgeWS v = true)
    (hvne : v ≠ []) :
    parse_fm_line st ((str "confidence: ") ++ v)
      = { st with confidence := parseConfOr1 v } := by
  rw [show (str "confidence: ") = (str "confidence") ++ (str ": ") from rfl]
  rw [parse_fm_line_keyval st (str "confidence") v (by decide) (by decide) (by decide)
    hv hvne]
  rfl

lemma parse_fm_line_timestamp (st : MemoryItem) {v : Str} (hv : noEdgeWS v = true)
    (hvne : v ≠ []) :
    parse_fm_line st ((str "timestamp: ") ++ v)
      = { st with timestamp := (parseInt? v).getD 0 } := by
  rw [show (str "timestamp: ") = (str "timestamp") ++ (str ": ") from rfl]
  rw [parse_fm_line_keyval st (str "timestamp") v (by decide) (by decide) (by decide)
    hv hvne]
  rfl

lemma parse_fm_line_tags_empty (st : MemoryItem) :
    parse_fm_line st (str "tags: ") = st := by
  unfold parse_fm_line
  rw [show trim (str "tags: ") = (str "tags:") from by decide]
  simp only [show splitOnceSub (str ": ") (str "tags:") = none from by decide]

lemma parse_fm_line_entities_empty (st : MemoryItem) :
    parse_fm_line st (str "entities: ") = st := by
  unfold parse_fm_line
  rw [show trim (str "entities: ") = (str "entities:") from by decide]
  simp only [show splitOnceSub (str ": ") (str "entities:") = none from by decide]

/-- The joined tag list inherits the well-formedness of its entries. -/
lemma joinSep_props (ts : List Str) (h : wfListField ts = true) (hne : ts ≠ []) :
    joinSep (str ", ") ts ≠ [] ∧ noEdgeWS (joinSep (str ", ") ts) = true
      ∧ (joinSep (str ", ") ts).contains '\n' = false
      ∧ (joinSep (str ", ") ts).contains '\x0d' = false
      ∧ hasSub (str "---") (joinSep (str ", ") ts) = false := by
  induction ts with
  | nil => exact absurd rfl hne
  | cons t ts' ih =>
    have ht := (wfListField_parts h t (List.mem_cons_self t ts')).1
    obtain ⟨htne, htedge, htnl, htcr, htddd⟩ := wfField_parts ht
    cases ts' with
    | nil =>
      show t ≠ [] ∧ noEdgeWS t = true ∧ _ ∧ _ ∧ _
      exact ⟨htne, htedge, htnl, htcr, htddd⟩
    | cons t2 rest =>
      have h' : wfListField (t2 :: rest) = true := by
        unfold wfListField at h ⊢
        rw [List.all_cons, Bool.and_eq_true] at h
        exact h.2
      obtain ⟨ihne, ihedge, ihnl, ihcr, ihddd⟩ := ih h' (by simp)
      have hform : joinSep (str ", ") (t :: t2 :: rest)
          = (t ++ (str ", ")) ++ joinSep (str ", ") (t2 :: rest) := by
        show t ++ (str ", ") ++ joinSep (str ", ") (t2 :: rest) = _
        rfl
      rw [hform]
      have hlast2 : (t ++ (str ", ")).getLast? = some ' ' := by
        rw [getLast?_append_right _ (by decide)]
        rfl
      refine ⟨by simp [htne], ?_, ?_, ?_, ?_⟩
      · unfold noEdgeWS
        rw [Bool.and_eq_true]
        constructor
        · rw [head?_append_left _ (by simp [htne]), head?_append_left _ htne]
          exact noEdgeWS_head htedge
        · rw [getLast?_append_right _ ihne]
          exact noEdgeWS_last ihedge
      · rw [contains_append_eq, contains_append_eq, htnl, ihnl]
        rfl
      · rw [contains_append_eq, contains_append_eq, htcr, ihcr]
        rfl
      · apply hasSub_append_last _ _ _ ?_ ihddd ?_
        · apply hasSub_append_head _ _ _ htddd (by decide)
          rfl
        · rw [hlast2]
          rfl

lemma lineOk_keyline {k v : Str}
    (hkn : k.contains '\n' = false) (hkd : hasSub (str "---") k = false)
    (hkl : k.getLast?.all (fun c => !(str "---").contains c) = true)
    (hvn : v.contains '\n' = false) (hvd : hasSub (str "---") v = false)
    (hvl : v.getLast?.all (fun c => !rustIsWhitespace c) = true) (hvne : v ≠ []) :
    lineOk (k ++ v) = true := by
  unfold lineOk
  rw [Bool.and_eq_true, Bool.and_eq_true]
  refine ⟨⟨?_, ?_⟩, ?_⟩
  · rw [contains_append_eq, hkn, hvn]
    rfl
  · rw [getLast?_append_right _ hvne]
    cases hgl : v.getLast? with
    | none => rfl
    | some c =>
      rw [hgl] at hvl
      simp only [Option.all] at hvl
      have hcne : c ≠ '\x0d' := by
        intro he
        subst he
        exact absurd hvl (by decide)
      simp [hcne]
  · rw [Bool.not_eq_true']
    exact hasSub_append_last _ _ _ hkd hvd hkl

/-- The tags line of a rendered item parses back to the tag list (an empty list is
written as an empty value, whose line is skipped, leaving the accumulator's empty
default in place). -/
lemma parse_fm_line_tags_any (st : MemoryItem) (ts : List Str)
    (h : wfListField ts = true) (hst : st.tags = []) :
    parse_fm_line st ((str "tags: ") ++ joinSep (str ", ") ts)
      = { st with tags := ts } := by
  cases ts with
  | nil =>
    rw [show joinSep (str ", ") ([] : List Str) = [] from rfl, List.append_nil,
      parse_fm_line_tags_empty]
    cases st
    simp only at hst
    subst hst
    rfl
  | cons t ts' =>
    obtain ⟨hjne, hjedge, -, -, -⟩ := joinSep_props _ h (by simp)
    rw [parse_fm_line_tags _ hjedge hjne]
    rw [splitCS_joinSep _ (fun u hu => (wfListField_parts h u hu).2) (by simp)]

/-- The entities line, analogously. -/
lemma parse_fm_line_entities_any (st : MemoryItem) (ts : List Str)
    (h : wfListField ts = true) (hst : st.entities = []) :
    parse_fm_line st ((str "entities: ") ++ joinSep (str ", ") ts)
      = { st with entities := ts } := by
  cases ts with
  | nil =>
    rw [show joinSep (str ", ") ([] : List Str) = [] from rfl, List.append_nil,
      parse_fm_line_entities_empty]
    cases st
    simp only at hst
    subst hst
    rfl
  | cons t ts' =>
    obtain ⟨hjne, hjedge, -, -, -⟩ := joinSep_props _ h (by simp)
    rw [parse_fm_line_entities _ hjedge hjne]
    rw [splitCS_joinSep _ (fun u hu => (wfListField_parts h u hu).2) (by simp)]

/-- Evaluating the frontmatter fold on a rendered item's lines recovers every
field; `content` stays at the initial empty value, to be filled from the body. -/
lemma parse_fm_fold_eval (d : Str) (m : MemoryItem) (hwf : wfMemoryItem m = true) :
    (fm_lines m).foldl parse_fm_line (parse_init d)
      = ⟨m.id, m.title, [], m.memory_type, m.timestamp, m.tags, m.entities,
          m.confidence⟩ := by
  unfold wfMemoryItem at hwf
  simp only [Bool.and_eq_true] at hwf
  obtain ⟨⟨⟨⟨⟨⟨hid, htitle⟩, hty⟩, htags⟩, hents⟩, hconf1, hconf2⟩, hcont⟩ := hwf
  obtain ⟨hidne, hidedge, -, -, -⟩ := wfField_parts hid
  obtain ⟨httne, htedge, -, -, -⟩ := wfField_parts htitle
  obtain ⟨htyne, htyedge, -, -, -⟩ := wfField_parts hty
  obtain ⟨hcfne, hcfedge, -, -, -⟩ := wfField_parts hconf1
  obtain ⟨htsne, -, -, -, htsedge⟩ := intToStr_props m.timestamp
  unfold fm_lines
  simp only [List.foldl_cons, List.foldl_nil]
  rw [parse_fm_line_id _ hidedge hidne]
  rw [parse_fm_line_title _ htedge httne]
  rw [parse_fm_line_type _ htyedge htyne]
  rw [parse_fm_line_tags_any _ _ htags rfl]
  rw [parse_fm_line_entities_any _ _ hents rfl]
  rw [parse_fm_line_confidence _ hcfedge hcfne]
  rw [parseConfOr1_eq_self hconf2]
  rw [parse_fm_line_timestamp _ htsedge htsne]
  rw [parseInt?_intToStr]
  rfl

/-- Every line written by `save_memory` is a well-behaved `rustLines` line. -/
lemma fm_lines_lineOk (m : MemoryItem) (hwf : wfMemoryItem m = true) :
    ∀ l ∈ fm_lines m, lineOk l = true := by
  unfold wfMemoryItem at hwf
  simp only [Bool.and_eq_true] at hwf
  obtain ⟨⟨⟨⟨⟨⟨hid, htitle⟩, hty⟩, htags⟩, hents⟩, hconf1, hconf2⟩, hcont⟩ := hwf
  have hfield : ∀ v : Str, wfField v = true →
      lineOk ((str "id: ") ++ v) = true ∧ lineOk ((str "title: ") ++ v) = true
        ∧ lineOk ((str "type: ") ++ v) = true
        ∧ lineOk ((str "confidence: ") ++ v) = true
        ∧ lineOk ((str "timestamp: ") ++ v) = true := by
    intro v hv
    obtain ⟨hne, hedge, hnl, hcr, hddd⟩ := wfField_parts hv
    exact ⟨lineOk_keyline (by decide) (by decide) (by decide) hnl hddd
        (noEdgeWS_last hedge) hne,
      lineOk_keyline (by decide) (by decide) (by decide) hnl hddd
        (noEdgeWS_last hedge) hne,
      lineOk_keyline (by decide) (by decide) (by decide) hnl hddd
        (noEdgeWS_last hedge) hne,
      lineOk_keyline (by decide) (by decide) (by decide) hnl hddd
        (noEdgeWS_last hedge) hne,
      lineOk_keyline (by decide) (by decide) (by decide) hnl hddd
        (noEdgeWS_last hedge) hne⟩
  have hlist : ∀ (k : Str) (ts : List Str), wfListField ts = true →
      k = str "tags: " ∨ k = str "entities: " →
      lineOk (k ++ joinSep (str ", ") ts) = true := by
    intro k ts hts hk
    cases ts with
    | nil =>
      rw [show joinSep (str ", ") ([] : List Str) = [] from rfl, List.append_nil]
      rcases hk with rfl | rfl <;> decide
    | cons t ts' =>
      obtain ⟨hjne, hjedge, hjnl, hjcr, hjddd⟩ := joinSep_props _ hts (by simp)
      rcases hk with rfl | rfl <;>
        exact lineOk_keyline (by decide) (by decide) (by decide) hjnl hjddd
          (noEdgeWS_last hjedge) hjne
  have htsline : lineOk ((str "timestamp: ") ++ intToStr m.timestamp) = true := by
    obtain ⟨htsne, htsnl, htscr, htsddd, htsedge⟩ := intToStr_props m.timestamp
    exact lineOk_keyline (by decide) (by decide) (by decide) htsnl htsddd
      (noEdgeWS_last htsedge) htsne
  intro l hl
  simp only [fm_lines, List.mem_cons, List.not_mem_nil, or_false] at hl
  rcases hl with rfl | rfl | rfl | rfl | rfl | rfl | rfl
  · exact (hfield _ hid).1
  · exact (hfield _ htitle).2.1
  · exact (hfield _ hty).2.2.1
  · exact hlist _ _ htags (Or.inl rfl)
  · exact hlist _ _ hents (Or.inr rfl)
  · exact (hfield _ hconf1).2.2.2.1
  · exact htsline

/-- Round trip of a single file: parsing a rendered well-formed item recovers it
exactly, whatever default type the scanning directory supplies. -/
lemma parse_render (m : MemoryItem) (hwf : wfMemoryItem m = true) (d : Str) :
    parse_markdown_memory (render_memory m) d = some m := by
  have hcont : noEdgeWS m.content = true := by
    unfold wfMemoryItem at hwf
    simp only [Bool.and_eq_true] at hwf
    exact hwf.2
  rw [render_memory, parse_mk_memory_file _ _ _ (fm_lines_lineOk m hwf) hcont]
  rw [parse_fm_fold_eval d m hwf]
  have hidne : m.id ≠ [] := by
    unfold wfMemoryItem at hwf
    simp only [Bool.and_eq_true] at hwf
    exact (wfField_parts hwf.1.1.1.1.1.1).1
  have httne : m.title ≠ [] := by
    unfold wfMemoryItem at hwf
    simp only [Bool.and_eq_true] at hwf
    exact (wfField_parts hwf.1.1.1.1.1.2).1
  rw [if_neg (by simp [List.isEmpty_iff, hidne, httne])]

lemma mem_insertTsDesc {x y : MemoryItem} {l : List MemoryItem} :
    x ∈ insertTsDesc y l ↔ x = y ∨ x ∈ l := by
  induction l with
  | nil => simp [insertTsDesc]
  | cons z zs ih =>
    unfold insertTsDesc
    by_cases h : y.timestamp < z.timestamp
    · rw [if_pos h]
      simp only [List.mem_cons, ih]
      tauto
    · rw [if_neg h]
      simp only [List.mem_cons]

lemma mem_sortTsDesc {x : MemoryItem} {l : List MemoryItem} :
    x ∈ sortTsDesc l ↔ x ∈ l := by
  induction l with
  | nil => simp [sortTsDesc]
  | cons y ys ih =>
    unfold sortTsDesc
    rw [mem_insertTsDesc, ih]
    simp

/-- C4 as stated is false: the loader trims the content body, so an item whose
content carries leading whitespace reloads changed — the claim's universal
round-trip equality fails at this item. -/
theorem claim4_counterexample :
    load_memories_from_disk (save_memory
        ⟨str "a", str "b", ' ' :: (str "x"), str "general", 0, [], [], str "1"⟩
        emptyMemFS)
      = [⟨str "a", str "b", str "x", str "general", 0, [], [], str "1"⟩]
    ∧ load_memories_from_disk (save_memory
        ⟨str "a", str "b", ' ' :: (str "x"), str "general", 0, [], [], str "1"⟩
        emptyMemFS)
      ≠ [⟨str "a", str "b", ' ' :: (str "x"), str "general", 0, [], [], str "1"⟩] := by
  constructor <;> decide

/-- C4 amended: for every well-formed `MemoryItem` — fields nonempty (except
content), free of edge whitespace, newlines and the `---` delimiter, list entries
additionally free of `", "`, confidence a canonical finite-float string, content
merely free of edge whitespace — saving into a fresh store and reloading yields
exactly the original item on every field; an empty tags/entities list parses back
to an empty list. -/
theorem claim4_roundtrip (m : MemoryItem) (hwf : wfMemoryItem m = true) :
    load_memories_from_disk (save_memory m emptyMemFS) = [m] := by
  have hone : ∀ ty : Str, loadDir [render_memory m] ty = [m] := by
    intro ty
    unfold loadDir
    simp [parse_render m hwf]
  unfold save_memory emptyMemFS
  by_cases h1 : m.memory_type == str "WORK"
  · rw [if_pos h1]
    show load_memories_from_disk ⟨[render_memory m], [], [], []⟩ = [m]
    unfold load_memories_from_disk
    rw [hone]
    simp [loadDir, sortTsDesc, insertTsDesc]
  · rw [if_neg (by simpa using h1)]
    by_cases h2 : m.memory_type == str "LEARNING"
    · rw [if_pos h2]
      show load_memories_from_disk ⟨[], [render_memory m], [], []⟩ = [m]
      unfold load_memories_from_disk
      rw [hone]
      simp [loadDir, sortTsDesc, insertTsDesc]
    · rw [if_neg (by simpa using h2)]
      by_cases h3 : m.memory_type == str "RELATIONSHIP"
      · rw [if_pos h3]
        show load_memories_from_disk ⟨[], [], [render_memory m], []⟩ = [m]
        unfold load_memories_from_disk
        rw [hone]
        simp [loadDir, sortTsDesc, insertTsDesc]
      · rw [if_neg (by simpa using h3)]
        show load_memories_from_disk ⟨[], [], [], [render_memory m]⟩ = [m]
        unfold load_memories_from_disk
        rw [hone]
        simp [loadDir, sortTsDesc, insertTsDesc]

/-- The well-formed item of the C4 witness (multi-line content, negative
timestamp, tags, entities). -/
def c4Good : MemoryItem :=
  ⟨str "memory-17", str "Launch plan", str "Ship on Friday.\nThen rest.",
    str "WORK", -3, [str "work", str "plan"], [str "Ann"], str "0.8"⟩

/-- Witness for the amended C4 at a concrete well-formed item. -/
theorem claim4_witness :
    wfMemoryItem c4Good = true
      ∧ load_memories_from_disk (save_memory c4Good emptyMemFS) = [c4Good] :=
  ⟨by decide, claim4_roundtrip c4Good (by decide)⟩

/-- C6: a memory file whose header lacks the `id` entry (or the `title` entry)
parses to nothing; files that parse to nothing are excluded from a full-store
reload without affecting the other files or raising any error (the loader is
total); and a file carrying only `id` and `title` is accepted with `confidence`
defaulted to `1.0` (canonically `"1"`), `timestamp` to `0`, and `tags`/`entities`
to empty lists, with `memory_type` defaulting to the scanned partition's type. -/
theorem claim6_malformed_skipped_defaults :
    (∀ t body d : Str, wfField t = true → noEdgeWS body = true →
      parse_markdown_memory (mk_memory_file [(str "title: ") ++ t] body) d = none) ∧
    (∀ i body d : Str, wfField i = true → noEdgeWS body = true →
      parse_markdown_memory (mk_memory_file [(str "id: ") ++ i] body) d = none) ∧
    (∀ (fs : MemFS) (f : Str), (∀ ty, parse_markdown_memory f ty = none) →
      load_memories_from_disk
          ⟨fs.work ++ [f], fs.learning, fs.relationship, fs.general⟩
        = load_memories_from_disk fs
      ∧ load_memories_from_disk
          ⟨fs.work, fs.learning ++ [f], fs.relationship, fs.general⟩
        = load_memories_from_disk fs
      ∧ load_memories_from_disk
          ⟨fs.work, fs.learning, fs.relationship ++ [f], fs.general⟩
        = load_memories_from_disk fs
      ∧ load_memories_from_disk
          ⟨fs.work, fs.learning, fs.relationship, fs.general ++ [f]⟩
        = load_memories_from_disk fs) ∧
    (∀ i t body d : Str, wfField i = true → wfField t = true →
      noEdgeWS body = true →
      parse_markdown_memory
          (mk_memory_file [(str "id: ") ++ i, (str "title: ") ++ t] body) d
        = some ⟨i, t, body, d, 0, [], [], str "1"⟩) := by
  refine ⟨?_, ?_, ?_, ?_⟩
  · intro t body d ht hb
    obtain ⟨htne, htedge, htnl, htcr, htddd⟩ := wfField_parts ht
    rw [parse_mk_memory_file _ _ _ ?_ hb]
    · rw [List.foldl_cons, List.foldl_nil]
      rw [parse_fm_line_title _ htedge htne]
      rw [if_pos (by simp [parse_init])]
    · intro l hl
      simp only [List.mem_cons, List.not_mem_nil, or_false] at hl
      subst hl
      exact lineOk_keyline (by decide) (by decide) (by decide) htnl htddd
        (noEdgeWS_last htedge) htne
  · intro i body d hi hb
    obtain ⟨hine, hiedge, hinl, hicr, hiddd⟩ := wfField_parts hi
    rw [parse_mk_memory_file _ _ _ ?_ hb]
    · rw [List.foldl_cons, List.foldl_nil]
      rw [parse_fm_line_id _ hiedge hine]
      rw [if_pos (by simp [parse_init])]
    · intro l hl
      simp only [List.mem_cons, List.not_mem_nil, or_false] at hl
      subst hl
      exact lineOk_keyline (by decide) (by decide) (by decide) hinl hiddd
        (noEdgeWS_last hiedge) hine
  · intro fs f hf
    refine ⟨?_, ?_, ?_, ?_⟩ <;>
      · unfold load_memories_from_disk loadDir
        simp [List.filterMap_append, hf]
  · intro i t body d hi ht hb
    obtain ⟨hine, hiedge, -, -, -⟩ := wfField_parts hi
    obtain ⟨htne, htedge, -, -, -⟩ := wfField_parts ht
    rw [parse_mk_memory_file _ _ _ ?_ hb]
    · rw [List.foldl_cons, List.foldl_cons, List.foldl_nil]
      rw [parse_fm_line_id _ hiedge hine]
      rw [parse_fm_line_title _ htedge htne]
      rw [if_neg (by simp [List.isEmpty_iff, hine, htne])]
      rfl
    · intro l hl
      simp only [List.mem_cons, List.not_mem_nil, or_false] at hl
      obtain ⟨hine2, hiedge2, hinl, hicr, hiddd⟩ := wfField_parts hi
      obtain ⟨htne2, htedge2, htnl, htcr, htddd⟩ := wfField_parts ht
      rcases hl with rfl | rfl
      · exact lineOk_keyline (by decide) (by decide) (by decide) hinl hiddd
          (noEdgeWS_last hiedge2) hine2
      · exact lineOk_keyline (by decide) (by decide) (by decide) htnl htddd
          (noEdgeWS_last htedge2) htne2

/-- Witness for C6: concrete malformed and minimal files. -/
theorem claim6_witness :
    parse_markdown_memory (mk_memory_file [str "title: only"] (str "body"))
        (str "general") = none
      ∧ parse_markdown_memory
          (mk_memory_file [str "id: m1", str "title: note"] (str "hello"))
          (str "WORK")
        = some ⟨str "m1", str "note", str "hello", str "WORK", 0, [], [], str "1"⟩ := by
  constructor
  · have h := claim6_malformed_skipped_defaults.1 (str "only") (str "body")
      (str "general") (by decide) (by decide)
    rw [show (str "title: ") ++ (str "only") = str "title: only" from by decide] at h
    exact h
  · have h := claim6_malformed_skipped_defaults.2.2.2 (str "m1") (str "note")
      (str "hello") (str "WORK") (by decide) (by decide) (by decide)
    rw [show (str "id: ") ++ (str "m1") = str "id: m1" from by decide,
      show (str "title: ") ++ (str "note") = str "title: note" from by decide] at h
    exact h

/-- C7 as stated is false: the parser rejects only an empty `id` or `title`; a
file whose body is empty parses to a record with empty content and surfaces in a
full-store reload instead of being dropped. -/
theorem claim7_counterexample :
    parse_markdown_memory (str "---\nid: a\ntitle: b\n---\n\n") (str "general")
      = some ⟨str "a", str "b", [], str "general", 0, [], [], str "1"⟩
    ∧ load_memories_from_disk ⟨[], [], [], [str "---\nid: a\ntitle: b\n---\n\n"]⟩
      = [⟨str "a", str "b", [], str "general", 0, [], [], str "1"⟩] := by
  constructor <;> decide

/-- C7 amended: every record returned by a full-store reload has a non-empty id
and a non-empty title — files parsing to an empty id or title are dropped
silently, never surfacing as errors — but an empty content body is accepted. -/
theorem claim7_id_title_nonempty :
    (∀ (f d : Str) (m : MemoryItem), parse_markdown_memory f d = some m →
      m.id ≠ [] ∧ m.title ≠ []) ∧
    (∀ (fs : MemFS) (m : MemoryItem), m ∈ load_memories_from_disk fs →
      m.id ≠ [] ∧ m.title ≠ []) := by
  have hparse : ∀ (f d : Str) (m : MemoryItem),
      parse_markdown_memory f d = some m → m.id ≠ [] ∧ m.title ≠ [] := by
    intro f d m h
    unfold parse_markdown_memory at h
    by_cases h0 : (!(str "---").isPrefixOf f) = true
    · rw [if_pos h0] at h
      exact absurd h (by simp)
    · rw [if_neg h0] at h
      rcases hs : splitnThree (str "---") f with _ | ⟨p0, rest1⟩
      · rw [hs] at h
        exact absurd h (by simp)
      rcases rest1 with _ | ⟨fm, rest2⟩
      · rw [hs] at h
        exact absurd h (by simp)
      rcases rest2 with _ | ⟨b0, rest3⟩
      · rw [hs] at h
        exact absurd h (by simp)
      rcases rest3 with _ | ⟨x, xs⟩
      · rw [hs] at h
        simp only at h
        by_cases hg : (((rustLines fm).foldl parse_fm_line (parse_init d)).id.isEmpty
            || ((rustLines fm).foldl parse_fm_line (parse_init d)).title.isEmpty)
            = true
        · rw [if_pos hg] at h
          exact absurd h (by simp)
        · rw [if_neg hg] at h
          have hg' : ¬((rustLines fm).foldl parse_fm_line (parse_init d)).id = []
              ∧ ¬((rustLines fm).foldl parse_fm_line (parse_init d)).title = [] := by
            simpa using hg
          have hm := (Option.some.injEq _ _).mp h
          constructor
          · rw [← hm]
            exact hg'.1
          · rw [← hm]
            exact hg'.2
      · rw [hs] at h
        exact absurd h (by simp)
  refine ⟨hparse, ?_⟩
  intro fs m hmem
  unfold load_memories_from_disk at hmem
  rw [mem_sortTsDesc] at hmem
  simp only [List.mem_append] at hmem
  rcases hmem with ((hmem | hmem) | hmem) | hmem <;>
    · unfold loadDir at hmem
      obtain ⟨f, -, hf⟩ := List.mem_filterMap.mp hmem
      exact hparse f _ m hf

/-- Witness for the amended C7 at the concrete empty-content store. -/
theorem claim7_witness :
    (str "a" : Str) ≠ [] ∧ (str "b" : Str) ≠ [] := by
  have h := claim7_id_title_nonempty.2
    ⟨[], [], [], [str "---\nid: a\ntitle: b\n---\n\n"]⟩
    ⟨str "a", str "b", [], str "general", 0, [], [], str "1"⟩ (by decide)
  exact h

end PaiSpec
